import Mathlib

/-!
Verification development for the CodeMx cross-system code mapping and
conflict-resolution pipeline.

The repository ships the Angular browsing layer, the PowerShell entry point
(`run-pipeline.ps1`) and the conflict-resolution design document, while the
Python pipeline package itself (`pipeline/models.py`, `pipeline/pipeline.py`,
`pipeline/conflict_resolvers.py`, the loaders and mappers) is not part of the
checked-in sources.  The pipeline components are therefore modelled from the
specification, as flagged on each definition; the PowerShell wrapper and the
static sql.js client are embedded directly from their sources.
-/

namespace CodeMx

/-- Modelled from the spec: the normalized `CodeRecord` shape produced by the
missing loaders (`pipeline/models.py`): primary key `code`, display
`description`, and an `active` flag defaulting to true. -/
structure CodeRecord where
  code : String
  description : String
  active : Bool
deriving Repr, DecidableEq

/-- Modelled from the spec: a `Mapping` table row of the missing mapper
modules; composite identity `(source_code, target_code)` within an ordered
vocabulary pair, an `active` flag, and a `via_code` field naming the
intermediate vocabulary code for derived mappings. -/
structure MappingRow where
  source_system : String
  target_system : String
  source_code : String
  target_code : String
  via_code : Option String
  active : Bool
deriving Repr, DecidableEq

/-- Modelled from the spec: the conflict `reason` enumeration of the missing
`MappingConflict` model. -/
inductive ConflictReason where
  | source_not_found
  | target_not_found
deriving Repr, DecidableEq

/-- Modelled from the spec: the conflict `status` enumeration (`open`,
`resolved`, `ignored`) of the missing `MappingConflict` model; `opened`
stands for the SQL value `open`. -/
inductive ConflictStatus where
  | opened
  | resolved
  | ignored
deriving Repr, DecidableEq

/-- Modelled from the spec: a `MappingConflict` row of the missing
`pipeline/models.py`. -/
structure MappingConflict where
  id : Nat
  source_system : String
  target_system : String
  source_code : String
  target_code : String
  source_description : String
  reason : ConflictReason
  details : String
  status : ConflictStatus
  resolution : Option String
  resolved_code : Option String
  created_at : Nat
  resolved_at : Option Nat
deriving Repr, DecidableEq

/-- Modelled from the spec: the relational store shared by all pipeline
components - per-vocabulary CodeRecord tables (tagged by vocabulary
identifier), the Mapping tables, the MappingConflict table, a surrogate-key
counter and a model clock for `created_at`/`resolved_at`. -/
structure Store where
  codes : List (String × CodeRecord)
  mappings : List MappingRow
  conflicts : List MappingConflict
  nextId : Nat
  now : Nat
deriving Repr, DecidableEq

/-- The empty store a clean run starts from. -/
def emptyStore : Store :=
  { codes := [], mappings := [], conflicts := [], nextId := 0, now := 0 }

/-- Modelled from the spec: lookup used by mappers - a code resolves against a
vocabulary's CodeRecord table when an active record with that code exists
(inactive records are excluded from new mapping computation). -/
def codeFound (s : Store) (system code : String) : Bool :=
  s.codes.any (fun p => p.1 == system && p.2.code == code && p.2.active)

/-- Does a vocabulary already hold a code record with this code (active or
not)? The loaders' insert-if-absent guard. -/
def codePresentB (s : Store) (system code : String) : Bool :=
  s.codes.any (fun p => p.1 == system && p.2.code == code)

/-- Modelled from the spec: insert-if-absent for one code record of the
missing loaders - a no-op when the vocabulary already holds the code,
otherwise an append. -/
def insertCodeIfAbsent (system : String) (r : CodeRecord) (s : Store) : Store :=
  if codePresentB s system r.code then s
  else { s with codes := s.codes ++ [(system, r)] }

/-- Modelled from the spec: a loader run (`load(store) -> count`) for one
vocabulary - parse already done, the run performs a bulk duplicate-tolerant
insert of the parsed records. -/
def loadVocab (system : String) (records : List CodeRecord) (s : Store) : Store :=
  records.foldl (fun acc r => insertCodeIfAbsent system r acc) s

/-- The identifying tuple of a conflict row, used for rerun deduplication. -/
def conflictKey (c : MappingConflict) :
    String × String × String × String × ConflictReason :=
  (c.source_system, c.target_system, c.source_code, c.target_code, c.reason)

/-- Does a conflict row with this identifying tuple already exist? The
Conflict Tracker's rerun-deduplication guard. -/
def conflictPresentB (s : Store) (ssys tsys scode tcode : String)
    (reason : ConflictReason) : Bool :=
  s.conflicts.any (fun c =>
    c.source_system == ssys && c.target_system == tsys &&
    c.source_code == scode && c.target_code == tcode && c.reason == reason)

/-- Modelled from the spec: the Conflict Tracker
(`track(source_system, target_system, source_code, target_code,
source_description, reason)`) of the missing conflict machinery - constructs a
MappingConflict row with `status = open`, `created_at = now`, and skips the
insert when a row with the same
`(source_system, target_system, source_code, target_code, reason)` tuple
already exists. -/
def track (ssys tsys scode tcode sdesc : String) (reason : ConflictReason)
    (s : Store) : Store :=
  if conflictPresentB s ssys tsys scode tcode reason then s
  else
    { s with
      conflicts := s.conflicts ++
        [{ id := s.nextId
           source_system := ssys
           target_system := tsys
           source_code := scode
           target_code := tcode
           source_description := sdesc
           reason := reason
           details := "code not found in loaded vocabulary"
           status := ConflictStatus.opened
           resolution := none
           resolved_code := none
           created_at := s.now
           resolved_at := none }]
      nextId := s.nextId + 1 }

/-- Modelled from the spec: one row of a source-provided crosswalk file read
by a Direct Mapper, carrying through rule/advice metadata. -/
structure CrosswalkRow where
  source_code : String
  target_code : String
  source_description : String
  rule : String
deriving Repr, DecidableEq

/-- Does a mapping row for this tuple already exist (dedup before insert)? -/
def mappingPresent (s : Store) (ssys tsys scode tcode : String) : Bool :=
  s.mappings.any (fun m =>
    m.source_system == ssys && m.target_system == tsys &&
    m.source_code == scode && m.target_code == tcode)

/-- Modelled from the spec: processing of a single crosswalk row by a Direct
Mapper of the missing mapper modules - resolve `source_code` against the
source vocabulary and `target_code` against the target vocabulary; on a
failed lookup call the Conflict Tracker with the appropriate reason and do
not insert a mapping row; when both resolve, insert (deduplicated) a Mapping
row. -/
def directMapRow (ssys tsys : String) (s : Store) (r : CrosswalkRow) : Store :=
  if !codeFound s ssys r.source_code then
    track ssys tsys r.source_code r.target_code r.source_description
      ConflictReason.source_not_found s
  else if !codeFound s tsys r.target_code then
    track ssys tsys r.source_code r.target_code r.source_description
      ConflictReason.target_not_found s
  else if mappingPresent s ssys tsys r.source_code r.target_code then s
  else
    { s with
      mappings := s.mappings ++
        [{ source_system := ssys
           target_system := tsys
           source_code := r.source_code
           target_code := r.target_code
           via_code := none
           active := true }] }

/-- Modelled from the spec: a Direct Mapper run (`build(store) -> count`)
over a crosswalk file. -/
def buildDirect (ssys tsys : String) (rows : List CrosswalkRow) (s : Store) :
    Store :=
  rows.foldl (directMapRow ssys tsys) s

/-- The active mapping rows of one ordered vocabulary pair - the legs a
Derived Mapper composes. -/
def legRows (s : Store) (a b : String) : List MappingRow :=
  s.mappings.filter (fun m =>
    m.source_system == a && m.target_system == b && m.active)

/-- Modelled from the spec: the A→C row a Derived Mapper emits for an A→B leg
joined with a B→C leg, with `via_code` set to the shared B code. -/
def composeLegs (a c : String) (ab bc : MappingRow) : MappingRow :=
  { source_system := a
    target_system := c
    source_code := ab.source_code
    target_code := bc.target_code
    via_code := some ab.target_code
    active := true }

/-- Modelled from the spec: the candidate A→C rows of a Derived Mapper run,
in source iteration order - every A→B row joined with every B→C row sharing
its B code. -/
def derivedCandidates (s : Store) (a b c : String) : List MappingRow :=
  (legRows s a b).flatMap (fun ab =>
    ((legRows s b c).filter (fun bc => bc.source_code == ab.target_code)).map
      (composeLegs a c ab))

/-- Modelled from the spec: insert-if-absent for one mapping row, keyed on the
`(source_system, target_system, source_code, target_code)` tuple. -/
def insertMappingIfAbsent (s : Store) (m : MappingRow) : Store :=
  if mappingPresent s m.source_system m.target_system m.source_code
      m.target_code then s
  else { s with mappings := s.mappings ++ [m] }

/-- Modelled from the spec: a Derived Mapper run (`build(store) -> count`) -
compute all candidates from the current mapping tables, then insert them
deduplicated on the (A,C) pair, first-seen `via_code` retained; no conflict
is ever raised at this stage. -/
def buildDerived (a b c : String) (s : Store) : Store :=
  (derivedCandidates s a b c).foldl insertMappingIfAbsent s

/-! ### Conflict resolution engine

Modelled from the spec: the missing `pipeline/conflict_resolvers.py` with its
strategy chain (`InvalidCodeIgnorer`, `ICD10FuzzyMatcher`,
`MissingICD10Creator`) and the bulk resolver. -/

/-- Fuel-driven longest-common-subsequence length; the fuel is the combined
length, which always suffices. -/
def lcsLenAux : Nat → List Char → List Char → Nat
  | 0, _, _ => 0
  | _ + 1, [], _ => 0
  | _ + 1, _, [] => 0
  | fuel + 1, x :: xs, y :: ys =>
    if x = y then lcsLenAux fuel xs ys + 1
    else max (lcsLenAux fuel xs (y :: ys)) (lcsLenAux fuel (x :: xs) ys)

/-- Longest-common-subsequence length of two character lists. -/
def lcsLen (a b : List Char) : Nat :=
  lcsLenAux (a.length + b.length) a b

/-- Modelled from the spec: the string-similarity score of the fuzzy matcher
on a 0-1 scale (a SequenceMatcher-style ratio `2*M/T`, realized with the
longest common subsequence as the match count). -/
def similarity (a b : String) : ℚ :=
  if a.length + b.length = 0 then 1
  else mkRat (2 * (lcsLen a.data b.data : Int)) (a.length + b.length)

/-- Remove every separator dot from a code string. -/
def stripDots (c : String) : String :=
  String.mk (c.data.filter (fun ch => ch ≠ '.'))

/-- Insert the ICD-10 separator dot after the third character when the code
has none. -/
def insertDot (c : String) : String :=
  if c.data.contains '.' || c.data.length ≤ 3 then c
  else String.mk (c.data.take 3 ++ '.' :: c.data.drop 3)

/-- Modelled from the spec: the candidate code-string variants the fuzzy
matcher generates by toggling the internal separator on and off. -/
def codeVariants (c : String) : List String :=
  [c, stripDots c, insertDot c]

/-- All codes of one vocabulary - the in-memory candidate cache the fuzzy
matcher loads once per run. -/
def vocabCodes (s : Store) (system : String) : List String :=
  (s.codes.filter (fun p => p.1 == system)).map (fun p => p.2.code)

/-- Keep the better-scored of two candidates, the earlier one on ties. -/
def betterCandidate (p q : String × ℚ) : String × ℚ :=
  if p.2 < q.2 then q else p

/-- The best-scored candidate of a list, earliest on ties. -/
def bestCandidate : List (String × ℚ) → Option (String × ℚ)
  | [] => none
  | p :: ps => some (ps.foldl betterCandidate p)

/-- Every (existing code, similarity) pair over all generated variants. -/
def scoredCandidates (variants codes : List String) : List (String × ℚ) :=
  variants.flatMap (fun v => codes.map (fun e => (e, similarity v e)))

/-- The free-text `resolution` the fuzzy matcher records: the original code,
the matched code and the similarity score. -/
def fuzzyResolutionText (original matched : String) (score : ℚ) : String :=
  "Fuzzy matched '" ++ original ++ "' to '" ++ matched ++
    "' (similarity " ++ toString score ++ ")"

/-- Modelled from the spec: placeholder/junk detection of the invalid-code
filter - all-`X` runs, all-zero runs, `N/A`, `TBD` (case-insensitive). -/
def isPlaceholderCode (c : String) : Bool :=
  let u := c.data.map Char.toUpper
  !c.data.isEmpty &&
    (u.all (fun ch => ch == 'X') || u.all (fun ch => ch == '0') ||
      u == "N/A".data || u == "TBD".data)

/-- Modelled from the spec: characters outside the vocabulary's valid
alphabet (alphanumerics and the separator dot). -/
def hasInvalidChars (c : String) : Bool :=
  c.data.any (fun ch => !(ch.isAlphanum || ch == '.'))

/-- Modelled from the spec: the invalid-code test of the `InvalidCodeIgnorer`
strategy. -/
def isInvalidCode (c : String) : Bool :=
  isPlaceholderCode c || hasInvalidChars c

/-- The code a conflict reports as missing, per its `reason`. -/
def missingCode (c : MappingConflict) : String :=
  match c.reason with
  | ConflictReason.source_not_found => c.source_code
  | ConflictReason.target_not_found => c.target_code

/-- Modelled from the spec: the resolution strategies as tagged variants -
the invalid-code filter, the format-normalizing fuzzy matcher with its
configurable threshold, and the opt-in placeholder creator. -/
inductive Strategy where
  | invalidCodeIgnorer
  | icd10FuzzyMatcher (threshold : ℚ)
  | missingCodeCreator
deriving Repr, DecidableEq

/-- The row the invalid-code filter writes: `ignored`, with a resolution
explaining the detected pattern. -/
def ignoredByFilter (s : Store) (c : MappingConflict) : MappingConflict :=
  { c with
    status := ConflictStatus.ignored
    resolution := some ("Invalid code format: '" ++ missingCode c ++ "'")
    resolved_at := some s.now }

/-- The row the fuzzy matcher writes: `resolved`, `resolved_code` set to the
best match, the score and the original/matched codes recorded in
`resolution`. -/
def resolvedByFuzzy (s : Store) (c : MappingConflict) (m : String) (sc : ℚ) :
    MappingConflict :=
  { c with
    status := ConflictStatus.resolved
    resolved_code := some m
    resolution := some (fuzzyResolutionText c.target_code m sc)
    resolved_at := some s.now }

/-- The row the placeholder creator writes, together with the inactive
CodeRecord it synthesizes for the missing target code. -/
def resolvedByCreator (s : Store) (c : MappingConflict) :
    MappingConflict × Option (String × CodeRecord) :=
  ({ c with
     status := ConflictStatus.resolved
     resolved_code := some c.target_code
     resolution := some ("Created placeholder code '" ++ c.target_code ++ "'")
     resolved_at := some s.now },
   some (c.target_system,
     { code := c.target_code
       description := "Placeholder (auto-created)"
       active := false }))

/-- Modelled from the spec: `resolve(conflict) -> bool` of one strategy;
`some` means the strategy claimed and finalized the conflict, carrying the
updated row and, for the placeholder creator, the new inactive CodeRecord it
synthesizes. -/
def applyStrategy (s : Store) :
    Strategy → MappingConflict →
      Option (MappingConflict × Option (String × CodeRecord))
  | Strategy.invalidCodeIgnorer, c =>
    if isInvalidCode (missingCode c) then some (ignoredByFilter s c, none)
    else none
  | Strategy.icd10FuzzyMatcher th, c =>
    if c.reason = ConflictReason.target_not_found then
      match bestCandidate (scoredCandidates (codeVariants c.target_code)
          (vocabCodes s c.target_system)) with
      | some (m, sc) =>
        if th ≤ sc then some (resolvedByFuzzy s c m sc, none)
        else none
      | none => none
    else none
  | Strategy.missingCodeCreator, c =>
    if c.reason = ConflictReason.target_not_found then
      some (resolvedByCreator s c)
    else none

/-- Modelled from the spec: the conflict-resolution parameters of the engine -
fuzzy threshold, placeholder-creation enable flag, processing limit,
dry-run flag. -/
structure ResolveConfig where
  threshold : ℚ
  createPlaceholders : Bool
  limit : Option Nat
  dryRun : Bool
deriving Repr, DecidableEq

/-- The recommended default fuzzy-match threshold, 0.85. -/
def defaultThreshold : ℚ := mkRat 85 100

/-- Modelled from the spec: the fixed priority order of the chain - invalid
codes first, then the fuzzy matcher, then (only when explicitly enabled) the
placeholder creator. -/
def strategyChain (cfg : ResolveConfig) : List Strategy :=
  [Strategy.invalidCodeIgnorer, Strategy.icd10FuzzyMatcher cfg.threshold] ++
    (if cfg.createPlaceholders then [Strategy.missingCodeCreator] else [])

/-- Modelled from the spec: first-match-wins application of the chain; the
returned index names the claiming strategy's position, later strategies are
skipped. -/
def applyChain (s : Store) :
    List Strategy → MappingConflict →
      Option (MappingConflict × Option (String × CodeRecord) × Nat)
  | [], _ => none
  | st :: rest, c =>
    match applyStrategy s st c with
    | some (c', nr) => some (c', nr, 0)
    | none =>
      match applyChain s rest c with
      | some (c', nr, i) => some (c', nr, i + 1)
      | none => none

/-- The aggregate counters the engine returns for operator reporting. -/
structure ResolveStats where
  processed : Nat
  resolved : Nat
  ignored : Nat
  unresolved : Nat
deriving Repr, DecidableEq

/-- Bump the counters for one processed conflict, by its resulting status. -/
def countOutcome (status : ConflictStatus) (st : ResolveStats) : ResolveStats :=
  match status with
  | ConflictStatus.resolved =>
    { st with processed := st.processed + 1, resolved := st.resolved + 1 }
  | ConflictStatus.ignored =>
    { st with processed := st.processed + 1, ignored := st.ignored + 1 }
  | ConflictStatus.opened =>
    { st with processed := st.processed + 1, unresolved := st.unresolved + 1 }

/-- The outcome of one engine pass: the rewritten conflict table, the code
records synthesized by the placeholder creator, and the counters. -/
structure PassResult where
  conflicts : List MappingConflict
  newCodes : List (String × CodeRecord)
  stats : ResolveStats
deriving Repr, DecidableEq

/-- Modelled from the spec: one engine pass over the conflict table - only
`open` conflicts are processed, an optional limit caps how many, every other
row is passed through untouched; strategies read the store snapshot taken at
the start of the pass (the once-per-run candidate cache). -/
def enginePass (s0 : Store) (chain : List Strategy) :
    List MappingConflict → Option Nat → PassResult
  | [], _ => { conflicts := [], newCodes := [], stats := ⟨0, 0, 0, 0⟩ }
  | c :: cs, lim =>
    if c.status = ConflictStatus.opened ∧ lim ≠ some 0 then
      let lim' := lim.map (fun n => n - 1)
      match applyChain s0 chain c with
      | some (c', nr, _) =>
        let r := enginePass s0 chain cs lim'
        { conflicts := c' :: r.conflicts
          newCodes := (match nr with | some p => [p] | none => []) ++ r.newCodes
          stats := countOutcome c'.status r.stats }
      | none =>
        let r := enginePass s0 chain cs lim'
        { conflicts := c :: r.conflicts
          newCodes := r.newCodes
          stats := countOutcome ConflictStatus.opened r.stats }
    else
      let r := enginePass s0 chain cs lim
      { r with conflicts := c :: r.conflicts }

/-- Modelled from the spec: a full resolution pass
(`auto_resolve_conflicts` / `BulkConflictResolver.resolve_all`) - build the
chain from the configuration, run the pass, and persist the outcomes unless
dry-run is set. -/
def resolvePass (cfg : ResolveConfig) (s : Store) : Store × ResolveStats :=
  let r := enginePass s (strategyChain cfg) s.conflicts cfg.limit
  (if cfg.dryRun then s
   else { s with conflicts := r.conflicts, codes := s.codes ++ r.newCodes },
   r.stats)

/-! ### The composed pipeline -/

/-- One vocabulary source file, already parsed into records. -/
structure VocabFile where
  system : String
  records : List CodeRecord
deriving Repr, DecidableEq

/-- One source-provided crosswalk file for a Direct Mapper. -/
structure CrosswalkFile where
  source_system : String
  target_system : String
  rows : List CrosswalkRow
deriving Repr, DecidableEq

/-- The configuration of one Derived Mapper: compose A→B with B→C. -/
structure DerivedSpec where
  sourceSystem : String
  viaSystem : String
  targetSystem : String
deriving Repr, DecidableEq

/-- The validated inputs of one pipeline run. -/
structure PipelineInput where
  vocabs : List VocabFile
  crosswalks : List CrosswalkFile
  derived : List DerivedSpec
deriving Repr, DecidableEq

/-- Modelled from the spec: the load phase - every selected loader in
sequence. -/
def loadPhase (inp : PipelineInput) (s : Store) : Store :=
  inp.vocabs.foldl (fun acc v => loadVocab v.system v.records acc) s

/-- Modelled from the spec: the direct-mapping phase - every Direct Mapper in
sequence. -/
def directPhase (inp : PipelineInput) (s : Store) : Store :=
  inp.crosswalks.foldl
    (fun acc f => buildDirect f.source_system f.target_system f.rows acc) s

/-- Modelled from the spec: the derived-mapping phase - every Derived Mapper
in sequence. -/
def derivedPhase (inp : PipelineInput) (s : Store) : Store :=
  inp.derived.foldl
    (fun acc d => buildDerived d.sourceSystem d.viaSystem d.targetSystem acc) s

/-- Modelled from the spec: one full pipeline run (`pipeline.pipeline`):
validate (pure, store untouched), load, map directly, map derived. -/
def runPipeline (inp : PipelineInput) (s : Store) : Store :=
  derivedPhase inp (directPhase inp (loadPhase inp s))

/-! ### Statement helpers and concrete fixtures -/

/-- The identifying tuple of a mapping row. -/
def mappingTuple (m : MappingRow) : String × String × String × String :=
  (m.source_system, m.target_system, m.source_code, m.target_code)

/-- The identifying tuple of a conflict row (without the reason). -/
def conflictTuple (c : MappingConflict) : String × String × String × String :=
  (c.source_system, c.target_system, c.source_code, c.target_code)

/-- Do two mapping rows carry the same identifying tuple? -/
def sameTupleB (m m' : MappingRow) : Bool :=
  m.source_system == m'.source_system && m.target_system == m'.target_system &&
    m.source_code == m'.source_code && m.target_code == m'.target_code

/-- Is a mapping row's tuple already present? -/
def rowPresent (s : Store) (m : MappingRow) : Bool :=
  mappingPresent s m.source_system m.target_system m.source_code m.target_code

/-- Both of a tuple's codes resolve against the loaded vocabularies. -/
def resolvesBoth (s : Store) (ssys tsys scode tcode : String) : Prop :=
  codeFound s ssys scode = true ∧ codeFound s tsys tcode = true

/-- The count of open conflicts in a backlog. -/
def countOpen (cs : List MappingConflict) : Nat :=
  (cs.filter (fun c => c.status == ConflictStatus.opened)).length

/-- An active code record used by the concrete scenarios. -/
def demoRecord (c : String) : CodeRecord :=
  { code := c, description := c, active := true }

/-- A crosswalk row without metadata, used by the concrete scenarios. -/
def demoRow (sc tc : String) : CrosswalkRow :=
  { source_code := sc, target_code := tc, source_description := sc, rule := "" }

/-- The spec's end-to-end scenario: vocabulary A with `A1 A2 A3`, vocabulary
B with `B1 B2`, one crosswalk `A1→B1, A2→B9, A3→B2`, no derived mappers. -/
def endToEndInput : PipelineInput :=
  { vocabs :=
      [ { system := "A", records := [demoRecord "A1", demoRecord "A2", demoRecord "A3"] },
        { system := "B", records := [demoRecord "B1", demoRecord "B2"] } ]
    crosswalks :=
      [ { source_system := "A", target_system := "B",
          rows := [demoRow "A1" "B1", demoRow "A2" "B9", demoRow "A3" "B2"] } ]
    derived := [] }

/-- An open conflict with the given codes and reason, used by the concrete
scenarios. -/
def demoConflict (n : Nat) (scode tcode : String) (r : ConflictReason) :
    MappingConflict :=
  { id := n
    source_system := "snomed"
    target_system := "icd10"
    source_code := scode
    target_code := tcode
    source_description := scode
    reason := r
    details := ""
    status := ConflictStatus.opened
    resolution := none
    resolved_code := none
    created_at := n
    resolved_at := none }

/-- A default engine configuration: recommended threshold, placeholders
disabled, no limit, persisting. -/
def defaultConfig : ResolveConfig :=
  { threshold := defaultThreshold
    createPlaceholders := false
    limit := none
    dryRun := false }

/-- A conflict whose missing target code is all-placeholder junk. -/
def junkConflict : MappingConflict :=
  demoConflict 0 "12345" "XXXXX" ConflictReason.target_not_found

/-- A store holding the ICD-10 codes the fuzzy-matcher scenarios search. -/
def e119Store : Store :=
  { emptyStore with
    codes := [("icd10", demoRecord "E11.9"), ("icd10", demoRecord "E10.1")] }

/-- A conflict whose target code `E119` differs from the loaded `E11.9` only
by separator placement. -/
def e119Conflict : MappingConflict :=
  demoConflict 1 "44054006" "E119" ConflictReason.target_not_found

/-- The per-row transition the core pipeline may perform on a conflict:
leave it untouched, or finalize an open one as resolved/ignored with a
non-null resolution. -/
def conflictStepOK (c c' : MappingConflict) : Prop :=
  c' = c ∨
    (c.status = ConflictStatus.opened ∧
      (c'.status = ConflictStatus.resolved ∨
        c'.status = ConflictStatus.ignored) ∧
      c'.resolution.isSome = true)

/-- The Direct-Mapper consistency invariant: every mapping row's codes both
resolve, and every conflict row records a genuinely failing lookup. Holds
trivially of a store with no mappings and no conflicts and is preserved by
every Direct Mapper run, which makes a mapping row and a conflict row for the
same tuple impossible. -/
def DirectInv (s : Store) : Prop :=
  (∀ m ∈ s.mappings,
    resolvesBoth s m.source_system m.target_system m.source_code m.target_code) ∧
  (∀ c ∈ s.conflicts,
    ¬resolvesBoth s c.source_system c.target_system c.source_code c.target_code)

/-- No Derived Mapper's output pair doubles as another's (or its own) leg
pair. -/
def noFeedbackList (specs : List DerivedSpec) : Prop :=
  ∀ d ∈ specs, ∀ d' ∈ specs,
    ¬(d'.sourceSystem = d.sourceSystem ∧ d'.targetSystem = d.viaSystem) ∧
    ¬(d'.sourceSystem = d.viaSystem ∧ d'.targetSystem = d.targetSystem)

/-- No Derived Mapper's output pair doubles as another Derived Mapper's leg
pair (true of the pipeline's one derived mapper, SNOMED→HCC via ICD-10,
whose legs are direct tables). -/
def NoDerivedFeedback (inp : PipelineInput) : Prop :=
  noFeedbackList inp.derived

/-- A crosswalk row has been settled against a store: the branch the Direct
Mapper would take for it is already materialized (its conflict row or its
mapping row exists), so reprocessing it is a no-op. -/
def rowSettled (ssys tsys : String) (r : CrosswalkRow) (s : Store) : Prop :=
  (codeFound s ssys r.source_code = false ∧
    conflictPresentB s ssys tsys r.source_code r.target_code
      ConflictReason.source_not_found = true) ∨
  (codeFound s ssys r.source_code = true ∧
    codeFound s tsys r.target_code = false ∧
    conflictPresentB s ssys tsys r.source_code r.target_code
      ConflictReason.target_not_found = true) ∨
  (codeFound s ssys r.source_code = true ∧
    codeFound s tsys r.target_code = true ∧
    mappingPresent s ssys tsys r.source_code r.target_code = true)

/-- Store growth during the mapping phases: the code tables are untouched
and the mapping and conflict tables only gain appended rows. -/
def Grows (s s' : Store) : Prop :=
  s'.codes = s.codes ∧ (∃ em, s'.mappings = s.mappings ++ em) ∧
    ∃ ec, s'.conflicts = s.conflicts ++ ec

/-- A three-vocabulary pipeline with one direct crosswalk per hop and one
derived mapper composing them. -/
def derivedPipelineInput : PipelineInput :=
  { vocabs :=
      [ { system := "A", records := [demoRecord "a1", demoRecord "a2"] },
        { system := "B", records := [demoRecord "b1"] },
        { system := "C", records := [demoRecord "c1"] } ]
    crosswalks :=
      [ { source_system := "A", target_system := "B",
          rows := [demoRow "a1" "b1", demoRow "a2" "b9"] },
        { source_system := "B", target_system := "C",
          rows := [demoRow "b1" "c1"] } ]
    derived := [{ sourceSystem := "A", viaSystem := "B", targetSystem := "C" }] }

/-- A store holding one A→B and one B→C mapping, legs for a derived run. -/
def derivedDemoStore : Store :=
  { emptyStore with
    codes :=
      [("A", demoRecord "a1"), ("B", demoRecord "b1"), ("C", demoRecord "c1")]
    mappings :=
      [ { source_system := "A", target_system := "B", source_code := "a1",
          target_code := "b1", via_code := none, active := true },
        { source_system := "B", target_system := "C", source_code := "b1",
          target_code := "c1", via_code := none, active := true } ] }

/-- A backlog of two open conflicts used by the limit scenario. -/
def limitStore : Store :=
  { emptyStore with
    conflicts :=
      [ demoConflict 0 "11111" "XXXXX" ConflictReason.target_not_found,
        demoConflict 1 "22222" "00000" ConflictReason.target_not_found ] }

/-- The default configuration capped at one processed conflict. -/
def limitConfig : ResolveConfig :=
  { defaultConfig with limit := some 1 }

/-! ### The PowerShell entry point (`run-pipeline.ps1`)

Embedded from the source: the pre-pipeline control flow of the wrapper -
list mode, parameter validation, key normalization and validation,
interactive selection, mode translation and the outcome it dispatches to. -/

/-- The `-Mode` parameter's validated set. -/
inductive PsMode where
  | all
  | loadersOnly
  | mappersOnly
  | select
  | validate
  | clean
  | reload
  | export
deriving Repr, DecidableEq

/-- The command-line parameters of `run-pipeline.ps1`; `none` on a list means
the parameter was not supplied. -/
structure PsParams where
  mode : PsMode
  only : Option (List String)
  skip : Option (List String)
  strict : Bool
  clean : Bool
  noOrganize : Bool
  list : Bool
deriving Repr, DecidableEq

/-- PowerShell truthiness of a string-array parameter: null and the empty
array are falsy, a one-element array has its element's truthiness (the empty
string is falsy), longer arrays are truthy. -/
def psTruthyList : Option (List String) → Bool
  | none => false
  | some [] => false
  | some [s] => s != ""
  | some (_ :: _ :: _) => true

/-- The loader keys of the wrapper. -/
def LoaderKeys : List String :=
  ["snomed", "icd10", "hcc", "cpt", "hcpcs", "rxnorm", "ndc"]

/-- The mapper keys of the wrapper. -/
def MapperKeys : List String :=
  ["snomed-icd10", "icd10-hcc", "snomed-hcc", "rxnorm-snomed", "ndc-rxnorm"]

/-- All known loader/mapper keys. -/
def AllKeys : List String := LoaderKeys ++ MapperKeys

/-- Split a character list at every comma, the wrapper's `-split ','`. -/
def splitCommaAux (acc : List Char) : List Char → List String
  | [] => [String.mk acc.reverse]
  | ch :: rest =>
    if ch = ',' then String.mk acc.reverse :: splitCommaAux [] rest
    else splitCommaAux (ch :: acc) rest

/-- Split a string at every comma. -/
def splitComma (s : String) : List String :=
  splitCommaAux [] s.data

/-- The wrapper's `Trim().ToLower()` key normalization. -/
def normalizeKey (s : String) : String :=
  String.mk
    (((s.data.dropWhile Char.isWhitespace).reverse.dropWhile
      Char.isWhitespace).reverse.map Char.toLower)

/-- The wrapper's flattening of a key-list parameter: split each entry on
commas, trim, lowercase, drop empties. -/
def flattenKeys (xs : List String) : List String :=
  ((xs.flatMap splitComma).map normalizeKey).filter (fun x => x != "")

/-- The keys the wrapper's validation loop actually inspects: each supplied
list after flattening (an empty flattened list is falsy and skipped, which
coincides with contributing no keys). -/
def effectiveKeys (p : PsParams) : List String :=
  ((p.only.map flattenKeys).getD []) ++ ((p.skip.map flattenKeys).getD [])

/-- The first supplied key outside the known key set, in validation order. -/
def firstUnknownKey (keys : List String) : Option String :=
  keys.find? (fun k => !AllKeys.contains k)

/-- Split a character list at every comma or whitespace character. -/
def splitSepsAux (acc : List Char) : List Char → List String
  | [] => [String.mk acc.reverse]
  | ch :: rest =>
    if ch = ',' || ch.isWhitespace then
      String.mk acc.reverse :: splitSepsAux [] rest
    else splitSepsAux (ch :: acc) rest

/-- The wrapper's tokenization of the interactive selection: split on runs of
commas and whitespace (`-split '[,\s]+'` followed by the non-empty filter). -/
def splitSelection (s : String) : List String :=
  (splitSepsAux [] s.data).filter (fun x => x != "")

/-- Does a token match the wrapper's `^\d+$` filter? -/
def isDigits (s : String) : Bool :=
  s != "" && s.data.all Char.isDigit

/-- Decimal value of an all-digit character list, the wrapper's `[int]`
cast. -/
def digitsToNat (l : List Char) : Nat :=
  l.foldl (fun acc ch => acc * 10 + (ch.toNat - 48)) 0

/-- The numbers accepted from the interactive selection. -/
def selectionNums (s : String) : List Nat :=
  ((splitSelection s).filter isDigits).map (fun x => digitsToNat x.data)

/-- Interactive `Select` mode: `a` keeps every key (`$Only = $null`); invalid
or empty selections abort with exit code 1 (`none`); otherwise the in-range
numbers pick keys by 1-based index, out-of-range numbers are warned and
dropped. -/
def selectKeys (selection : String) : Option (Option (List String)) :=
  if normalizeKey selection = "a" then some none
  else
    let nums := selectionNums selection
    if nums.isEmpty then none
    else
      let chosen := (nums.filter
          (fun n => decide (1 ≤ n ∧ n ≤ AllKeys.length))).map
        (fun n => AllKeys.getD (n - 1) "")
      if chosen.isEmpty then none else some (some chosen)

/-- The arguments the wrapper hands to `python -m pipeline.pipeline`. -/
structure PyArgs where
  clean : Bool
  validateOnly : Bool
  only : Option (List String)
  skip : Option (List String)
  strict : Bool
  noOrganize : Bool
deriving Repr, DecidableEq

/-- How one invocation of `run-pipeline.ps1` ends before (or by) dispatching
to the Python pipeline. -/
inductive ScriptOutcome where
  | listExit
  | mutualExclusionError
  | unknownKeyError (key : String)
  | selectAbort
  | cleanOnly
  | exportRun
  | pipelineRun (args : PyArgs)
deriving Repr, DecidableEq

/-- Embedded from the source: the wrapper's control flow up to dispatch.
`-List` prints the keys and exits 0 first; then `-Only`/`-Skip` mutual
exclusion is checked on the raw arrays; then the flattened keys are
validated; then `Select` mode prompts; `Clean`/`Reload` force the clean
flag; `LoadersOnly`/`MappersOnly` translate to an inclusion list when
neither list was supplied; `Clean` deletes the database and exits;
`Export` runs the JSON export; everything else invokes the pipeline. -/
def runScript (p : PsParams) (selection : String) : ScriptOutcome :=
  if p.list then ScriptOutcome.listExit
  else if psTruthyList p.only && psTruthyList p.skip then
    ScriptOutcome.mutualExclusionError
  else
    let only1 := p.only.map flattenKeys
    let skip1 := p.skip.map flattenKeys
    match firstUnknownKey (effectiveKeys p) with
    | some k => ScriptOutcome.unknownKeyError k
    | none =>
      let selRes :=
        if p.mode = PsMode.select then selectKeys selection else some only1
      match selRes with
      | none => ScriptOutcome.selectAbort
      | some only2 =>
        let clean2 :=
          p.clean || p.mode == PsMode.clean || p.mode == PsMode.reload
        let only3 :=
          if !psTruthyList only2 && !psTruthyList skip1 then
            match p.mode with
            | PsMode.loadersOnly => some LoaderKeys
            | PsMode.mappersOnly => some MapperKeys
            | _ => only2
          else only2
        if p.mode = PsMode.clean then ScriptOutcome.cleanOnly
        else if p.mode = PsMode.export then ScriptOutcome.exportRun
        else
          ScriptOutcome.pipelineRun
            { clean := clean2
              validateOnly := p.mode == PsMode.validate
              only := if psTruthyList only3 then only3 else none
              skip := if psTruthyList skip1 then skip1 else none
              strict := p.strict
              noOrganize := p.noOrganize }

/-- The exit code an outcome is known to produce before the Python process
runs (`none` when the code is the dispatched process's own). -/
def exitCodeOf : ScriptOutcome → Option Nat
  | ScriptOutcome.listExit => some 0
  | ScriptOutcome.mutualExclusionError => some 1
  | ScriptOutcome.unknownKeyError _ => some 1
  | ScriptOutcome.selectAbort => some 1
  | ScriptOutcome.cleanOnly => some 0
  | ScriptOutcome.exportRun => none
  | ScriptOutcome.pipelineRun _ => none

/-- Does the outcome reach `python -m pipeline.pipeline` (any pipeline
phase)? -/
def invokesPipeline : ScriptOutcome → Bool
  | ScriptOutcome.pipelineRun _ => true
  | _ => false

/-- Does the outcome print an ERROR line? -/
def printsError : ScriptOutcome → Bool
  | ScriptOutcome.mutualExclusionError => true
  | ScriptOutcome.unknownKeyError _ => true
  | ScriptOutcome.selectAbort => true
  | _ => false

/-- An invocation passing `-List` together with both `-Only` and `-Skip`. -/
def psListInvocation : PsParams :=
  { mode := PsMode.all
    only := some ["snomed"]
    skip := some ["icd10"]
    strict := false
    clean := false
    noOrganize := false
    list := true }

/-- An invocation passing both `-Only` and `-Skip` without `-List`. -/
def psBothListsInvocation : PsParams :=
  { psListInvocation with list := false }

/-! ### The static sql.js client

Embedded from the source: the conflict-mutating operations of
`CodingApiSqlJs` (`coding-api-sqljs.ts`), whose bodies also appear verbatim
in `database.service.ts` - each unconditionally throws before touching the
database. -/

/-- A `mapping_conflicts` row as surfaced to the static client. -/
structure ConflictItem where
  id : Nat
  status : String
  resolution : Option String
  resolved_code : Option String
  resolved_at : Option String
deriving Repr, DecidableEq

/-- The in-browser sql.js database state visible to the static client. -/
structure SqlJsDb where
  mapping_conflicts : List ConflictItem
deriving Repr, DecidableEq

/-- `resolveConflict` of the static sql.js client: throws unconditionally. -/
def sqljsResolveConflict (db : SqlJsDb) (id : Nat)
    (resolvedCode resolution : String) :
    Except String (SqlJsDb × ConflictItem) :=
  Except.error "Conflict updates not supported in static mode"

/-- `ignoreConflict` of the static sql.js client: throws unconditionally. -/
def sqljsIgnoreConflict (db : SqlJsDb) (id : Nat) (resolution : Option String) :
    Except String (SqlJsDb × ConflictItem) :=
  Except.error "Conflict updates not supported in static mode"

/-- `reopenConflict` of the static sql.js client: throws unconditionally. -/
def sqljsReopenConflict (db : SqlJsDb) (id : Nat) :
    Except String (SqlJsDb × ConflictItem) :=
  Except.error "Conflict updates not supported in static mode"

/-- `bulkUpdateConflicts` of the static sql.js client: throws
unconditionally. -/
def sqljsBulkUpdateConflicts (db : SqlJsDb) (ids : List Nat) (action : String)
    (resolution : Option String) : Except String (SqlJsDb × Nat) :=
  Except.error "Bulk updates not supported in static mode"

/-! ## Theorems -/

/-! ### Engine lemmas shared by several claims -/

theorem applyStrategy_finalizes {s : Store} {st : Strategy}
    {c : MappingConflict} {r : MappingConflict × Option (String × CodeRecord)}
    (h : applyStrategy s st c = some r) :
    (r.1.status = ConflictStatus.resolved ∨
      r.1.status = ConflictStatus.ignored) ∧ r.1.resolution.isSome = true := by
  cases st with
  | invalidCodeIgnorer =>
    rw [applyStrategy] at h
    split at h
    · obtain rfl := Option.some.inj h
      simp [ignoredByFilter]
    · exact absurd h (by simp)
  | icd10FuzzyMatcher th =>
    rw [applyStrategy] at h
    split at h
    · split at h
      · split at h
        · obtain rfl := Option.some.inj h
          simp [resolvedByFuzzy]
        · exact absurd h (by simp)
      · exact absurd h (by simp)
    · exact absurd h (by simp)
  | missingCodeCreator =>
    rw [applyStrategy] at h
    split at h
    · obtain rfl := Option.some.inj h
      simp [resolvedByCreator]
    · exact absurd h (by simp)

theorem applyChain_finalizes {s : Store} {chain : List Strategy}
    {c : MappingConflict} :
    ∀ out : MappingConflict × Option (String × CodeRecord) × Nat,
      applyChain s chain c = some out →
      (out.1.status = ConflictStatus.resolved ∨
        out.1.status = ConflictStatus.ignored) ∧
        out.1.resolution.isSome = true := by
  induction chain with
  | nil => intro out h; exact absurd h (by simp [applyChain])
  | cons st rest ih =>
    intro out h
    rw [applyChain] at h
    cases hs : applyStrategy s st c with
    | some r =>
      obtain ⟨c', nr⟩ := r
      rw [hs] at h
      obtain rfl := Option.some.inj h
      exact applyStrategy_finalizes hs
    | none =>
      rw [hs] at h
      cases hc : applyChain s rest c with
      | some r2 =>
        obtain ⟨c', nr, i⟩ := r2
        rw [hc] at h
        obtain rfl := Option.some.inj h
        exact ih (c', nr, i) hc
      | none => rw [hc] at h; exact absurd h (by simp)

theorem enginePass_forall₂ (s0 : Store) (chain : List Strategy) :
    ∀ (cs : List MappingConflict) (lim : Option Nat),
      List.Forall₂ conflictStepOK cs (enginePass s0 chain cs lim).conflicts := by
  intro cs
  induction cs with
  | nil => intro lim; simp [enginePass]
  | cons c cs ih =>
    intro lim
    rw [enginePass]
    split
    case isTrue hcond =>
      cases hac : applyChain s0 chain c with
      | some out =>
        obtain ⟨c', nr, i⟩ := out
        simp only [hac]
        exact List.Forall₂.cons
          (Or.inr ⟨hcond.1, (applyChain_finalizes _ hac).1,
            (applyChain_finalizes _ hac).2⟩)
          (ih _)
      | none =>
        simp only [hac]
        exact List.Forall₂.cons (Or.inl rfl) (ih _)
    case isFalse hcond =>
      exact List.Forall₂.cons (Or.inl rfl) (ih lim)

theorem forall₂_right_mem {α β : Type _} {R : α → β → Prop} :
    ∀ {l₁ : List α} {l₂ : List β}, List.Forall₂ R l₁ l₂ →
      ∀ b ∈ l₂, ∃ a ∈ l₁, R a b := by
  intro l₁ l₂ h
  induction h with
  | nil => intro b hb; exact absurd hb (by simp)
  | cons hR _ ih =>
    intro b hb
    rcases List.mem_cons.mp hb with hb | hb
    · exact ⟨_, List.mem_cons_self _ _, hb ▸ hR⟩
    · obtain ⟨a, ha, hrel⟩ := ih b hb
      exact ⟨a, List.mem_cons_of_mem _ ha, hrel⟩

theorem enginePass_length (s0 : Store) (chain : List Strategy)
    (cs : List MappingConflict) (lim : Option Nat) :
    (enginePass s0 chain cs lim).conflicts.length = cs.length :=
  (List.Forall₂.length_eq (enginePass_forall₂ s0 chain cs lim)).symm

theorem enginePass_budget_zero (s0 : Store) (chain : List Strategy) :
    ∀ cs : List MappingConflict,
      enginePass s0 chain cs (some 0) =
        { conflicts := cs, newCodes := [], stats := ⟨0, 0, 0, 0⟩ } := by
  intro cs
  induction cs with
  | nil => rfl
  | cons c cs ih =>
    rw [enginePass]
    rw [if_neg]
    · rw [ih]
    · rintro ⟨-, hne⟩
      exact hne rfl

theorem countOpen_cons_open {c : MappingConflict} {cs : List MappingConflict}
    (h : c.status = ConflictStatus.opened) :
    countOpen (c :: cs) = countOpen cs + 1 := by
  simp [countOpen, List.filter_cons, h]

theorem countOpen_cons_closed {c : MappingConflict} {cs : List MappingConflict}
    (h : ¬c.status = ConflictStatus.opened) :
    countOpen (c :: cs) = countOpen cs := by
  have hb : (c.status == ConflictStatus.opened) = false := by
    simpa using h
  simp [countOpen, List.filter_cons, hb]

theorem countOpen_append (C D : List MappingConflict) :
    countOpen (C ++ D) = countOpen C + countOpen D := by
  simp [countOpen, List.filter_append]

theorem countOpen_split {cs : List MappingConflict} {n : Nat}
    (h : n ≤ countOpen cs) :
    ∃ C D, cs = C ++ D ∧ countOpen C = n := by
  induction cs generalizing n with
  | nil =>
    have : n = 0 := Nat.le_zero.mp (by simpa [countOpen] using h)
    exact ⟨[], [], rfl, by simp [countOpen, this]⟩
  | cons c cs ih =>
    cases n with
    | zero => exact ⟨[], c :: cs, rfl, rfl⟩
    | succ m =>
      by_cases hst : c.status = ConflictStatus.opened
      · rw [countOpen_cons_open hst] at h
        obtain ⟨C, D, hsplit, hcount⟩ := ih (Nat.le_of_succ_le_succ h)
        exact ⟨c :: C, D, by rw [hsplit]; rfl, by
          rw [countOpen_cons_open hst, hcount]⟩
      · rw [countOpen_cons_closed hst] at h
        obtain ⟨C, D, hsplit, hcount⟩ := ih h
        exact ⟨c :: C, D, by rw [hsplit]; rfl, by
          rw [countOpen_cons_closed hst, hcount]⟩

theorem enginePass_append (s0 : Store) (chain : List Strategy) :
    ∀ (C D : List MappingConflict) (n : Nat), countOpen C = n →
      enginePass s0 chain (C ++ D) (some n) =
        { conflicts := (enginePass s0 chain C (some n)).conflicts ++ D
          newCodes := (enginePass s0 chain C (some n)).newCodes
          stats := (enginePass s0 chain C (some n)).stats } := by
  intro C
  induction C with
  | nil =>
    intro D n hn
    have hn0 : n = 0 := by simpa [countOpen] using hn.symm
    subst hn0
    rw [List.nil_append, enginePass_budget_zero]
    rfl
  | cons c C ih =>
    intro D n hn
    by_cases hst : c.status = ConflictStatus.opened
    · rw [countOpen_cons_open hst] at hn
      have hne : n ≠ 0 := by omega
      have hcond : c.status = ConflictStatus.opened ∧ (some n : Option Nat) ≠ some 0 := by
        exact ⟨hst, by simpa using hne⟩
      rw [List.cons_append, enginePass, if_pos hcond, enginePass, if_pos hcond]
      have hdec : (some n).map (fun k => k - 1) = some (countOpen C) := by
        simp
        omega
      rw [hdec]
      cases hac : applyChain s0 chain c with
      | some out =>
        obtain ⟨c', nr, i⟩ := out
        simp only [hac]
        rw [ih D (countOpen C) rfl]
        rfl
      | none =>
        simp only [hac]
        rw [ih D (countOpen C) rfl]
        rfl
    · rw [countOpen_cons_closed hst] at hn
      have hcond : ¬(c.status = ConflictStatus.opened ∧
          (some n : Option Nat) ≠ some 0) := by
        rintro ⟨h1, -⟩
        exact hst h1
      rw [List.cons_append, enginePass, if_neg hcond, enginePass, if_neg hcond]
      rw [ih D n hn]
      rfl

theorem countOutcome_processed (st : ConflictStatus) (r : ResolveStats) :
    (countOutcome st r).processed = r.processed + 1 := by
  cases st <;> rfl

theorem enginePass_processed (s0 : Store) (chain : List Strategy) :
    ∀ (C : List MappingConflict) (n : Nat), countOpen C = n →
      (enginePass s0 chain C (some n)).stats.processed = n := by
  intro C
  induction C with
  | nil =>
    intro n hn
    have hn0 : n = 0 := by simpa [countOpen] using hn.symm
    subst hn0
    rfl
  | cons c C ih =>
    intro n hn
    by_cases hst : c.status = ConflictStatus.opened
    · rw [countOpen_cons_open hst] at hn
      have hne : n ≠ 0 := by omega
      have hcond : c.status = ConflictStatus.opened ∧ (some n : Option Nat) ≠ some 0 :=
        ⟨hst, by simpa using hne⟩
      rw [enginePass, if_pos hcond]
      have hdec : (some n).map (fun k => k - 1) = some (countOpen C) := by
        simp
        omega
      rw [hdec]
      have hp := ih (countOpen C) rfl
      cases hac : applyChain s0 chain c with
      | some out =>
        obtain ⟨c', nr, i⟩ := out
        simp only [hac]
        show (countOutcome c'.status
          (enginePass s0 chain C (some (countOpen C))).stats).processed = n
        rw [countOutcome_processed, hp]
        omega
      | none =>
        simp only [hac]
        show (countOutcome ConflictStatus.opened
          (enginePass s0 chain C (some (countOpen C))).stats).processed = n
        rw [countOutcome_processed, hp]
        omega
    · rw [countOpen_cons_closed hst] at hn
      have hcond : ¬(c.status = ConflictStatus.opened ∧
          (some n : Option Nat) ≠ some 0) := by
        rintro ⟨h1, -⟩
        exact hst h1
      rw [enginePass, if_neg hcond]
      exact ih n hn

/-- C5: the engine pass relates every input conflict to its output row by
`conflictStepOK` (untouched, or open→resolved / open→ignored with a non-null
resolution - never resolved↔ignored, never a reopening), preserves the row
count (no deletion), preserves the "resolved/ignored rows carry a
resolution" invariant, `resolvePass` never deletes a row either, and the
tracker only ever appends a fresh `open` row with a null resolution. -/
theorem C5_conflict_status_transitions (s0 : Store) (chain : List Strategy)
    (cs : List MappingConflict) (lim : Option Nat) (cfg : ResolveConfig)
    (s : Store) (ssys tsys scode tcode sdesc : String)
    (reason : ConflictReason) :
    List.Forall₂ conflictStepOK cs (enginePass s0 chain cs lim).conflicts ∧
    (enginePass s0 chain cs lim).conflicts.length = cs.length ∧
    ((∀ c ∈ cs, c.status ≠ ConflictStatus.opened → c.resolution.isSome = true) →
      ∀ c' ∈ (enginePass s0 chain cs lim).conflicts,
        c'.status ≠ ConflictStatus.opened → c'.resolution.isSome = true) ∧
    (resolvePass cfg s).1.conflicts.length = s.conflicts.length ∧
    ((track ssys tsys scode tcode sdesc reason s).conflicts = s.conflicts ∨
      ∃ nc, (track ssys tsys scode tcode sdesc reason s).conflicts =
          s.conflicts ++ [nc] ∧
        nc.status = ConflictStatus.opened ∧ nc.resolution = none) := by
  refine ⟨enginePass_forall₂ s0 chain cs lim,
    enginePass_length s0 chain cs lim, ?_, ?_, ?_⟩
  · intro hinv c' hc' hst
    obtain ⟨c, hc, hstep⟩ :=
      forall₂_right_mem (enginePass_forall₂ s0 chain cs lim) c' hc'
    rcases hstep with rfl | ⟨-, -, hres⟩
    · exact hinv c' hc hst
    · exact hres
  · rw [resolvePass]
    cases hdry : cfg.dryRun
    · simp only [Bool.false_eq_true, if_false]
      exact enginePass_length s (strategyChain cfg) s.conflicts cfg.limit
    · simp
  · rw [track]
    split
    · exact Or.inl rfl
    · exact Or.inr ⟨_, rfl, rfl, rfl⟩

/-- C5 witness: the invariant-preservation component applies to a concrete
one-conflict backlog. -/
theorem C5_conflict_status_transitions_witness :
    (∀ c ∈ limitStore.conflicts,
      c.status ≠ ConflictStatus.opened → c.resolution.isSome = true) ∧
    (∀ c' ∈ (enginePass limitStore (strategyChain defaultConfig)
        limitStore.conflicts none).conflicts,
      c'.status ≠ ConflictStatus.opened → c'.resolution.isSome = true) :=
  ⟨by decide,
    (C5_conflict_status_transitions limitStore (strategyChain defaultConfig)
      limitStore.conflicts none defaultConfig limitStore
      "a" "b" "c" "d" "e" ConflictReason.target_not_found).2.2.1
      (by decide)⟩

/-- C8: a resolution pass with limit `n` over a backlog holding more than
`n` open conflicts processes exactly `n` conflicts; the backlog splits as
`C ++ D` where `C` holds the first `n` open conflicts, the output conflict
table is the processed image of `C` (of unchanged length) followed by `D`
verbatim, so the remaining `m - n` open conflicts - and in particular their
`status` and `created_at` - are untouched. -/
theorem C8_resolution_limit_frame (cfg : ResolveConfig) (s : Store) (n : Nat)
    (hlim : cfg.limit = some n) (hdry : cfg.dryRun = false)
    (hm : n < countOpen s.conflicts) :
    (resolvePass cfg s).2.processed = n ∧
    ∃ C D, s.conflicts = C ++ D ∧ countOpen C = n ∧
      countOpen D = countOpen s.conflicts - n ∧ D ≠ [] ∧
      (resolvePass cfg s).1.conflicts =
        (enginePass s (strategyChain cfg) C (some n)).conflicts ++ D ∧
      (enginePass s (strategyChain cfg) C (some n)).conflicts.length =
        C.length := by
  obtain ⟨C, D, hsplit, hcount⟩ := countOpen_split (Nat.le_of_lt hm)
  have htotal : countOpen s.conflicts = countOpen C + countOpen D := by
    rw [hsplit, countOpen_append]
  have hD : countOpen D = countOpen s.conflicts - n := by omega
  have hDpos : 0 < countOpen D := by omega
  have hDne : D ≠ [] := by
    intro hnil
    rw [hnil] at hDpos
    simp [countOpen] at hDpos
  have hpass : enginePass s (strategyChain cfg) s.conflicts cfg.limit =
      { conflicts := (enginePass s (strategyChain cfg) C (some n)).conflicts ++ D
        newCodes := (enginePass s (strategyChain cfg) C (some n)).newCodes
        stats := (enginePass s (strategyChain cfg) C (some n)).stats } := by
    rw [hlim, hsplit]
    exact enginePass_append s (strategyChain cfg) C D n hcount
  refine ⟨?_, C, D, hsplit, hcount, hD, hDne, ?_, ?_⟩
  · show (resolvePass cfg s).2.processed = n
    rw [resolvePass]
    simp only [hpass]
    exact enginePass_processed s (strategyChain cfg) C n hcount
  · rw [resolvePass]
    simp only [hpass, hdry]
    rfl
  · exact (enginePass_length s (strategyChain cfg) C (some n)).trans rfl

/-- C8 witness: two open conflicts, limit 1 - exactly one is processed. -/
theorem C8_resolution_limit_frame_witness :
    limitConfig.limit = some 1 ∧ limitConfig.dryRun = false ∧
    1 < countOpen limitStore.conflicts ∧
    (resolvePass limitConfig limitStore).2.processed = 1 :=
  ⟨rfl, rfl, by decide,
    (C8_resolution_limit_frame limitConfig limitStore 1 rfl rfl (by decide)).1⟩

/-! ### Derived-mapper lemmas -/

theorem sameTupleB_refl (m : MappingRow) : sameTupleB m m = true := by
  simp [sameTupleB]

theorem sameTupleB_fields {a b : MappingRow} (h : sameTupleB a b = true) :
    a.source_system = b.source_system ∧ a.target_system = b.target_system ∧
      a.source_code = b.source_code ∧ a.target_code = b.target_code := by
  simp only [sameTupleB, Bool.and_eq_true, beq_iff_eq] at h
  exact ⟨h.1.1.1, h.1.1.2, h.1.2, h.2⟩

theorem rowPresent_congr {a b : MappingRow} (s : Store)
    (h : sameTupleB a b = true) : rowPresent s b = rowPresent s a := by
  obtain ⟨e1, e2, e3, e4⟩ := sameTupleB_fields h
  rw [rowPresent, rowPresent, ← e1, ← e2, ← e3, ← e4]

theorem rowPresent_append_single (s : Store) (m0 m : MappingRow) :
    rowPresent { s with mappings := s.mappings ++ [m0] } m =
      (rowPresent s m || sameTupleB m0 m) := by
  simp [rowPresent, mappingPresent, sameTupleB, List.any_append,
    Bool.or_comm, Bool.and_assoc]

theorem foldl_insert_spec :
    ∀ (cands : List MappingRow) (s : Store),
      ∃ extra,
        (cands.foldl insertMappingIfAbsent s).mappings = s.mappings ++ extra ∧
        (cands.foldl insertMappingIfAbsent s).codes = s.codes ∧
        (cands.foldl insertMappingIfAbsent s).conflicts = s.conflicts ∧
        ∀ m ∈ extra, m ∈ cands ∧ rowPresent s m = false ∧
          cands.find? (fun mm => sameTupleB mm m) = some m := by
  intro cands
  induction cands with
  | nil =>
    intro s
    exact ⟨[], by simp, rfl, rfl, by simp⟩
  | cons m0 rest ih =>
    intro s
    rw [List.foldl_cons]
    by_cases hpres : rowPresent s m0 = true
    · have hpres' : mappingPresent s m0.source_system m0.target_system
          m0.source_code m0.target_code = true := hpres
      have hskip : insertMappingIfAbsent s m0 = s := by
        rw [insertMappingIfAbsent, if_pos hpres']
      rw [hskip]
      obtain ⟨extra, h1, h2, h3, h4⟩ := ih s
      refine ⟨extra, h1, h2, h3, fun m hm => ?_⟩
      obtain ⟨hmem, habs, hfind⟩ := h4 m hm
      refine ⟨List.mem_cons_of_mem _ hmem, habs, ?_⟩
      rw [List.find?_cons_of_neg]
      · exact hfind
      · intro hsame
        rw [rowPresent_congr s hsame, hpres] at habs
        cases habs
    · have hneg : ¬(mappingPresent s m0.source_system m0.target_system
          m0.source_code m0.target_code = true) := hpres
      have hins : insertMappingIfAbsent s m0 =
          { s with mappings := s.mappings ++ [m0] } := by
        rw [insertMappingIfAbsent, if_neg hneg]
      rw [hins]
      obtain ⟨extra, h1, h2, h3, h4⟩ :=
        ih { s with mappings := s.mappings ++ [m0] }
      refine ⟨m0 :: extra, ?_, h2, h3, fun m hm => ?_⟩
      · rw [h1]
        simp
      · rcases List.mem_cons.mp hm with rfl | hm
        · refine ⟨List.mem_cons_self _ _, Bool.eq_false_iff.mpr hpres, ?_⟩
          exact List.find?_cons_of_pos _ (sameTupleB_refl m)
        · obtain ⟨hmem, habs, hfind⟩ := h4 m hm
          rw [rowPresent_append_single] at habs
          have habs' : rowPresent s m = false := by
            cases hq : rowPresent s m
            · rfl
            · rw [hq] at habs; cases habs
          have hsame0 : sameTupleB m0 m = false := by
            cases hq : sameTupleB m0 m
            · rfl
            · rw [hq] at habs
              rw [Bool.or_true] at habs
              cases habs
          refine ⟨List.mem_cons_of_mem _ hmem, habs', ?_⟩
          rw [List.find?_cons_of_neg]
          · exact hfind
          · rw [hsame0]
            exact Bool.false_ne_true

theorem derivedCandidates_mem {s : Store} {a b c : String} {m : MappingRow}
    (h : m ∈ derivedCandidates s a b c) :
    ∃ ab ∈ legRows s a b, ∃ bc ∈ legRows s b c,
      bc.source_code = ab.target_code ∧ m = composeLegs a c ab bc := by
  rw [derivedCandidates, List.mem_flatMap] at h
  obtain ⟨ab, hab, hm⟩ := h
  rw [List.mem_map] at hm
  obtain ⟨bc, hbc, rfl⟩ := hm
  rw [List.mem_filter] at hbc
  exact ⟨ab, hab, bc, hbc.1, by simpa using hbc.2, rfl⟩

/-- C7: a Derived Mapper run only appends mapping rows; each appended A→C
row is the composition of an existing A→B leg and a matching B→C leg with
`via_code` the B code actually used; its tuple was absent beforehand and it
is the first candidate in source iteration order carrying that tuple (so
each (A,C) pair is emitted at most once, first-seen `via_code` retained);
and the conflict table is untouched - a Derived Mapper never raises a
conflict. -/
theorem C7_derived_mapper_provenance (a b c : String) (s : Store) :
    ∃ extra,
      (buildDerived a b c s).mappings = s.mappings ++ extra ∧
      (buildDerived a b c s).conflicts = s.conflicts ∧
      (buildDerived a b c s).codes = s.codes ∧
      (∀ m ∈ extra,
        (∃ ab ∈ legRows s a b, ∃ bc ∈ legRows s b c,
          bc.source_code = ab.target_code ∧ m = composeLegs a c ab bc) ∧
        rowPresent s m = false ∧
        (derivedCandidates s a b c).find? (fun mm => sameTupleB mm m) =
          some m) ∧
      (∀ m ∈ extra, ∀ m' ∈ extra, sameTupleB m m' = true → m = m') := by
  obtain ⟨extra, h1, h2, h3, h4⟩ :=
    foldl_insert_spec (derivedCandidates s a b c) s
  refine ⟨extra, h1, h3, h2, fun m hm => ?_, fun m hm m' hm' hsame => ?_⟩
  · obtain ⟨hmem, habs, hfind⟩ := h4 m hm
    exact ⟨derivedCandidates_mem hmem, habs, hfind⟩
  · obtain ⟨-, -, hfind⟩ := h4 m hm
    obtain ⟨-, -, hfind'⟩ := h4 m' hm'
    have hpred : (fun mm => sameTupleB mm m) = (fun mm => sameTupleB mm m') := by
      funext mm
      obtain ⟨e1, e2, e3, e4⟩ := sameTupleB_fields hsame
      rw [sameTupleB, sameTupleB, e1, e2, e3, e4]
    rw [hpred, hfind'] at hfind
    exact (Option.some.inj hfind).symm

/-- C7 witness: one derived run over concrete legs appends exactly the
composed `a1→c1` row with `via_code = b1`, and the theorem applies to it. -/
theorem C7_derived_mapper_provenance_witness :
    (buildDerived "A" "B" "C" derivedDemoStore).mappings.map mappingTuple =
      [("A", "B", "a1", "b1"), ("B", "C", "b1", "c1"), ("A", "C", "a1", "c1")] ∧
    (buildDerived "A" "B" "C" derivedDemoStore).mappings.map
        (fun m => m.via_code) = [none, none, some "b1"] ∧
    (buildDerived "A" "B" "C" derivedDemoStore).conflicts =
      derivedDemoStore.conflicts ∧
    ∃ extra,
      (buildDerived "A" "B" "C" derivedDemoStore).mappings =
        derivedDemoStore.mappings ++ extra ∧
      (buildDerived "A" "B" "C" derivedDemoStore).conflicts =
        derivedDemoStore.conflicts ∧
      (buildDerived "A" "B" "C" derivedDemoStore).codes =
        derivedDemoStore.codes ∧
      (∀ m ∈ extra,
        (∃ ab ∈ legRows derivedDemoStore "A" "B",
          ∃ bc ∈ legRows derivedDemoStore "B" "C",
          bc.source_code = ab.target_code ∧ m = composeLegs "A" "C" ab bc) ∧
        rowPresent derivedDemoStore m = false ∧
        (derivedCandidates derivedDemoStore "A" "B" "C").find?
          (fun mm => sameTupleB mm m) = some m) ∧
      (∀ m ∈ extra, ∀ m' ∈ extra, sameTupleB m m' = true → m = m') :=
  ⟨by decide, by decide, by decide,
    C7_derived_mapper_provenance "A" "B" "C" derivedDemoStore⟩

/-! ### Idempotence lemmas: code-table stability and loaders -/

theorem track_codes_eq (ssys tsys scode tcode sdesc : String)
    (reason : ConflictReason) (s : Store) :
    (track ssys tsys scode tcode sdesc reason s).codes = s.codes := by
  rw [track]; split <;> rfl

theorem track_mappings_eq (ssys tsys scode tcode sdesc : String)
    (reason : ConflictReason) (s : Store) :
    (track ssys tsys scode tcode sdesc reason s).mappings = s.mappings := by
  rw [track]; split <;> rfl

theorem track_conflicts_grow (ssys tsys scode tcode sdesc : String)
    (reason : ConflictReason) (s : Store) :
    ∃ ec, (track ssys tsys scode tcode sdesc reason s).conflicts =
      s.conflicts ++ ec := by
  rw [track]
  split
  · exact ⟨[], by simp⟩
  · exact ⟨_, rfl⟩

theorem directMapRow_codes_eq (ssys tsys : String) (s : Store)
    (r : CrosswalkRow) : (directMapRow ssys tsys s r).codes = s.codes := by
  rw [directMapRow]
  split
  · exact track_codes_eq ..
  · split
    · exact track_codes_eq ..
    · split <;> rfl

theorem buildDirect_codes_eq (ssys tsys : String) :
    ∀ (rows : List CrosswalkRow) (s : Store),
      (buildDirect ssys tsys rows s).codes = s.codes := by
  intro rows
  induction rows with
  | nil => intro s; rfl
  | cons r rows ih =>
    intro s
    rw [buildDirect, List.foldl_cons]
    have h := ih (directMapRow ssys tsys s r)
    rw [buildDirect] at h
    rw [h, directMapRow_codes_eq]

theorem directFold_codes_eq :
    ∀ (files : List CrosswalkFile) (s : Store),
      (files.foldl
        (fun acc f => buildDirect f.source_system f.target_system f.rows acc)
        s).codes = s.codes := by
  intro files
  induction files with
  | nil => intro s; rfl
  | cons f files ih =>
    intro s
    rw [List.foldl_cons, ih, buildDirect_codes_eq]

theorem directPhase_codes_eq (inp : PipelineInput) (s : Store) :
    (directPhase inp s).codes = s.codes :=
  directFold_codes_eq inp.crosswalks s

theorem buildDerived_codes_eq (a b c : String) (s : Store) :
    (buildDerived a b c s).codes = s.codes := by
  obtain ⟨e, -, h2, -, -⟩ := foldl_insert_spec (derivedCandidates s a b c) s
  exact h2

theorem buildDerived_conflicts_eq (a b c : String) (s : Store) :
    (buildDerived a b c s).conflicts = s.conflicts := by
  obtain ⟨e, -, -, h3, -⟩ := foldl_insert_spec (derivedCandidates s a b c) s
  exact h3

theorem derivedFold_codes_eq :
    ∀ (specs : List DerivedSpec) (s : Store),
      (specs.foldl
        (fun acc d => buildDerived d.sourceSystem d.viaSystem d.targetSystem acc)
        s).codes = s.codes := by
  intro specs
  induction specs with
  | nil => intro s; rfl
  | cons d specs ih =>
    intro s
    rw [List.foldl_cons, ih, buildDerived_codes_eq]

theorem derivedPhase_codes_eq (inp : PipelineInput) (s : Store) :
    (derivedPhase inp s).codes = s.codes :=
  derivedFold_codes_eq inp.derived s

theorem codePresentB_of_codes_append {s s' : Store} {sys code : String}
    (e : List (String × CodeRecord)) (hc : s'.codes = s.codes ++ e)
    (h : codePresentB s sys code = true) : codePresentB s' sys code = true := by
  rw [codePresentB, hc, List.any_append]
  rw [codePresentB] at h
  rw [h]
  rfl

theorem codePresentB_congr {s s' : Store} (sys code : String)
    (hc : s'.codes = s.codes) : codePresentB s' sys code = codePresentB s sys code := by
  rw [codePresentB, codePresentB, hc]

theorem insertCode_shape (sys : String) (r : CodeRecord) (s : Store) :
    ∃ e, (insertCodeIfAbsent sys r s).codes = s.codes ++ e ∧
      (insertCodeIfAbsent sys r s).mappings = s.mappings ∧
      (insertCodeIfAbsent sys r s).conflicts = s.conflicts := by
  rw [insertCodeIfAbsent]
  split
  · exact ⟨[], by simp, rfl, rfl⟩
  · exact ⟨[(sys, r)], rfl, rfl, rfl⟩

theorem present_after_insertCode (sys : String) (r : CodeRecord) (s : Store) :
    codePresentB (insertCodeIfAbsent sys r s) sys r.code = true := by
  rw [insertCodeIfAbsent]
  split
  case isTrue h => exact h
  case isFalse h =>
    show codePresentB { s with codes := s.codes ++ [(sys, r)] } sys r.code = true
    rw [codePresentB, List.any_append]
    simp

theorem loadVocab_shape (sys : String) :
    ∀ (recs : List CodeRecord) (s : Store),
      ∃ e, (loadVocab sys recs s).codes = s.codes ++ e ∧
        (loadVocab sys recs s).mappings = s.mappings ∧
        (loadVocab sys recs s).conflicts = s.conflicts := by
  intro recs
  induction recs with
  | nil => intro s; exact ⟨[], by simp [loadVocab], rfl, rfl⟩
  | cons r recs ih =>
    intro s
    obtain ⟨e1, he1, hm1, hc1⟩ := insertCode_shape sys r s
    obtain ⟨e2, he2, hm2, hc2⟩ := ih (insertCodeIfAbsent sys r s)
    refine ⟨e1 ++ e2, ?_, ?_, ?_⟩
    · show (loadVocab sys recs (insertCodeIfAbsent sys r s)).codes = _
      rw [he2, he1, List.append_assoc]
    · show (loadVocab sys recs (insertCodeIfAbsent sys r s)).mappings = _
      rw [hm2, hm1]
    · show (loadVocab sys recs (insertCodeIfAbsent sys r s)).conflicts = _
      rw [hc2, hc1]

theorem present_mono_loadVocab (sys a b : String) (recs : List CodeRecord)
    (s : Store) (h : codePresentB s a b = true) :
    codePresentB (loadVocab sys recs s) a b = true := by
  obtain ⟨e, he, -, -⟩ := loadVocab_shape sys recs s
  exact codePresentB_of_codes_append e he h

theorem present_after_loadVocab (sys : String) :
    ∀ (recs : List CodeRecord) (s : Store), ∀ rec ∈ recs,
      codePresentB (loadVocab sys recs s) sys rec.code = true := by
  intro recs
  induction recs with
  | nil => intro s rec hmem; exact absurd hmem (by simp)
  | cons r recs ih =>
    intro s rec hmem
    rcases List.mem_cons.mp hmem with rfl | hmem
    · show codePresentB (loadVocab sys recs (insertCodeIfAbsent sys rec s))
        sys rec.code = true
      exact present_mono_loadVocab sys sys rec.code recs _
        (present_after_insertCode sys rec s)
    · exact ih (insertCodeIfAbsent sys r s) rec hmem

theorem loadVocab_noop (sys : String) :
    ∀ (recs : List CodeRecord) (s : Store),
      (∀ rec ∈ recs, codePresentB s sys rec.code = true) →
      loadVocab sys recs s = s := by
  intro recs
  induction recs with
  | nil => intro s _; rfl
  | cons r recs ih =>
    intro s h
    have hskip : insertCodeIfAbsent sys r s = s := by
      rw [insertCodeIfAbsent, if_pos (h r (List.mem_cons_self _ _))]
    show loadVocab sys recs (insertCodeIfAbsent sys r s) = s
    rw [hskip]
    exact ih s (fun rec hmem => h rec (List.mem_cons_of_mem _ hmem))

theorem loadFold_shape :
    ∀ (vocabs : List VocabFile) (s : Store),
      ∃ e, (vocabs.foldl (fun acc v => loadVocab v.system v.records acc) s).codes
          = s.codes ++ e ∧
        (vocabs.foldl (fun acc v => loadVocab v.system v.records acc) s).mappings
          = s.mappings ∧
        (vocabs.foldl (fun acc v => loadVocab v.system v.records acc) s).conflicts
          = s.conflicts := by
  intro vocabs
  induction vocabs with
  | nil => intro s; exact ⟨[], by simp, rfl, rfl⟩
  | cons v vocabs ih =>
    intro s
    obtain ⟨e1, he1, hm1, hc1⟩ := loadVocab_shape v.system v.records s
    obtain ⟨e2, he2, hm2, hc2⟩ := ih (loadVocab v.system v.records s)
    rw [List.foldl_cons]
    exact ⟨e1 ++ e2, by rw [he2, he1, List.append_assoc],
      by rw [hm2, hm1], by rw [hc2, hc1]⟩

theorem present_mono_loadFold (a b : String) (vocabs : List VocabFile)
    (s : Store) (h : codePresentB s a b = true) :
    codePresentB
      (vocabs.foldl (fun acc v => loadVocab v.system v.records acc) s) a b
      = true := by
  obtain ⟨e, he, -, -⟩ := loadFold_shape vocabs s
  exact codePresentB_of_codes_append e he h

theorem present_after_loadFold :
    ∀ (vocabs : List VocabFile) (s : Store), ∀ v ∈ vocabs, ∀ rec ∈ v.records,
      codePresentB
        (vocabs.foldl (fun acc v => loadVocab v.system v.records acc) s)
        v.system rec.code = true := by
  intro vocabs
  induction vocabs with
  | nil => intro s v hv; exact absurd hv (by simp)
  | cons v0 vocabs ih =>
    intro s v hv rec hrec
    rw [List.foldl_cons]
    rcases List.mem_cons.mp hv with rfl | hv
    · exact present_mono_loadFold v.system rec.code vocabs _
        (present_after_loadVocab v.system v.records s rec hrec)
    · exact ih (loadVocab v0.system v0.records s) v hv rec hrec

theorem loadFold_noop :
    ∀ (vocabs : List VocabFile) (s : Store),
      (∀ v ∈ vocabs, ∀ rec ∈ v.records,
        codePresentB s v.system rec.code = true) →
      vocabs.foldl (fun acc v => loadVocab v.system v.records acc) s = s := by
  intro vocabs
  induction vocabs with
  | nil => intro s _; rfl
  | cons v vocabs ih =>
    intro s h
    rw [List.foldl_cons,
      loadVocab_noop v.system v.records s (h v (List.mem_cons_self _ _))]
    exact ih s (fun v' hv' => h v' (List.mem_cons_of_mem _ hv'))

/-! ### Idempotence lemmas: store growth and direct-mapper reruns -/

theorem grows_refl (s : Store) : Grows s s :=
  ⟨rfl, ⟨[], by simp⟩, ⟨[], by simp⟩⟩

theorem grows_trans {s t u : Store} (h1 : Grows s t) (h2 : Grows t u) :
    Grows s u := by
  obtain ⟨hc1, ⟨em1, hm1⟩, ⟨ec1, hf1⟩⟩ := h1
  obtain ⟨hc2, ⟨em2, hm2⟩, ⟨ec2, hf2⟩⟩ := h2
  exact ⟨hc2.trans hc1, ⟨em1 ++ em2, by rw [hm2, hm1, List.append_assoc]⟩,
    ⟨ec1 ++ ec2, by rw [hf2, hf1, List.append_assoc]⟩⟩

theorem codeFound_congr {s s' : Store} (hc : s'.codes = s.codes)
    (a b : String) : codeFound s' a b = codeFound s a b := by
  rw [codeFound, codeFound, hc]

theorem conflictPresentB_mono {s s' : Store}
    {ssys tsys scode tcode : String} {reason : ConflictReason}
    (h : Grows s s')
    (hp : conflictPresentB s ssys tsys scode tcode reason = true) :
    conflictPresentB s' ssys tsys scode tcode reason = true := by
  obtain ⟨-, -, ec, hf⟩ := h
  rw [conflictPresentB, hf, List.any_append]
  rw [conflictPresentB] at hp
  rw [hp]
  rfl

theorem mappingPresent_mono {s s' : Store} {a b c d : String}
    (h : Grows s s') (hp : mappingPresent s a b c d = true) :
    mappingPresent s' a b c d = true := by
  obtain ⟨-, ⟨em, hm⟩, -⟩ := h
  rw [mappingPresent, hm, List.any_append]
  rw [mappingPresent] at hp
  rw [hp]
  rfl

theorem rowSettled_mono {ssys tsys : String} {r : CrosswalkRow}
    {s s' : Store} (hg : Grows s s') (h : rowSettled ssys tsys r s) :
    rowSettled ssys tsys r s' := by
  have hc := hg.1
  rcases h with ⟨h1, h2⟩ | ⟨h1, h2, h3⟩ | ⟨h1, h2, h3⟩
  · exact Or.inl ⟨by rw [codeFound_congr hc, h1], conflictPresentB_mono hg h2⟩
  · exact Or.inr (Or.inl ⟨by rw [codeFound_congr hc, h1],
      by rw [codeFound_congr hc, h2], conflictPresentB_mono hg h3⟩)
  · exact Or.inr (Or.inr ⟨by rw [codeFound_congr hc, h1],
      by rw [codeFound_congr hc, h2], mappingPresent_mono hg h3⟩)

theorem track_grows (ssys tsys scode tcode sdesc : String)
    (reason : ConflictReason) (s : Store) :
    Grows s (track ssys tsys scode tcode sdesc reason s) :=
  ⟨track_codes_eq .., ⟨[], by rw [track_mappings_eq]; simp⟩,
    track_conflicts_grow ..⟩

theorem directMapRow_grows (ssys tsys : String) (s : Store)
    (r : CrosswalkRow) : Grows s (directMapRow ssys tsys s r) := by
  rw [directMapRow]
  split
  · exact track_grows ..
  · split
    · exact track_grows ..
    · split
      · exact grows_refl s
      · exact ⟨rfl, ⟨_, rfl⟩, ⟨[], by simp⟩⟩

theorem buildDirect_grows (ssys tsys : String) :
    ∀ (rows : List CrosswalkRow) (s : Store),
      Grows s (buildDirect ssys tsys rows s) := by
  intro rows
  induction rows with
  | nil => intro s; exact grows_refl s
  | cons r rows ih =>
    intro s
    show Grows s (buildDirect ssys tsys rows (directMapRow ssys tsys s r))
    exact grows_trans (directMapRow_grows ssys tsys s r) (ih _)

theorem directFold_grows :
    ∀ (files : List CrosswalkFile) (s : Store),
      Grows s (files.foldl
        (fun acc f => buildDirect f.source_system f.target_system f.rows acc)
        s) := by
  intro files
  induction files with
  | nil => intro s; exact grows_refl s
  | cons f files ih =>
    intro s
    rw [List.foldl_cons]
    exact grows_trans (buildDirect_grows _ _ f.rows s) (ih _)

theorem buildDerived_grows (a b c : String) (s : Store) :
    Grows s (buildDerived a b c s) := by
  obtain ⟨e, h1, h2, h3, -⟩ := foldl_insert_spec (derivedCandidates s a b c) s
  exact ⟨h2, ⟨e, h1⟩, ⟨[], by rw [buildDerived, h3]; simp⟩⟩

theorem derivedFold_grows :
    ∀ (specs : List DerivedSpec) (s : Store),
      Grows s (specs.foldl
        (fun acc d => buildDerived d.sourceSystem d.viaSystem d.targetSystem acc)
        s) := by
  intro specs
  induction specs with
  | nil => intro s; exact grows_refl s
  | cons d specs ih =>
    intro s
    rw [List.foldl_cons]
    exact grows_trans (buildDerived_grows _ _ _ s) (ih _)

theorem present_after_track (ssys tsys scode tcode sdesc : String)
    (reason : ConflictReason) (s : Store) :
    conflictPresentB (track ssys tsys scode tcode sdesc reason s)
      ssys tsys scode tcode reason = true := by
  rw [track]
  split
  case isTrue h => exact h
  case isFalse h =>
    show conflictPresentB { s with conflicts := _, nextId := _ }
      ssys tsys scode tcode reason = true
    rw [conflictPresentB, List.any_append]
    simp

theorem settled_after_directMapRow (ssys tsys : String) (s : Store)
    (r : CrosswalkRow) :
    rowSettled ssys tsys r (directMapRow ssys tsys s r) := by
  rw [directMapRow]
  split
  case isTrue hs =>
    rw [Bool.not_eq_true'] at hs
    exact Or.inl ⟨by rw [codeFound_congr (track_codes_eq ..), hs],
      present_after_track ..⟩
  case isFalse hs =>
    simp only [Bool.not_eq_true, Bool.not_eq_false'] at hs
    split
    case isTrue ht =>
      rw [Bool.not_eq_true'] at ht
      exact Or.inr (Or.inl ⟨by rw [codeFound_congr (track_codes_eq ..), hs],
        by rw [codeFound_congr (track_codes_eq ..), ht],
        present_after_track ..⟩)
    case isFalse ht =>
      simp only [Bool.not_eq_true, Bool.not_eq_false'] at ht
      split
      case isTrue hp => exact Or.inr (Or.inr ⟨hs, ht, hp⟩)
      case isFalse hp =>
        refine Or.inr (Or.inr ⟨hs, ht, ?_⟩)
        rw [mappingPresent, List.any_append]
        simp

theorem settled_noop {ssys tsys : String} {r : CrosswalkRow} {s : Store}
    (h : rowSettled ssys tsys r s) : directMapRow ssys tsys s r = s := by
  rw [directMapRow]
  rcases h with ⟨h1, h2⟩ | ⟨h1, h2, h3⟩ | ⟨h1, h2, h3⟩
  · rw [if_pos (by rw [h1]; rfl : (!codeFound s ssys r.source_code) = true)]
    rw [track, if_pos h2]
  · rw [if_neg (by simp [h1] : ¬(!codeFound s ssys r.source_code) = true)]
    rw [if_pos (by rw [h2]; rfl : (!codeFound s tsys r.target_code) = true)]
    rw [track, if_pos h3]
  · rw [if_neg (by simp [h1] : ¬(!codeFound s ssys r.source_code) = true)]
    rw [if_neg (by simp [h2] : ¬(!codeFound s tsys r.target_code) = true)]
    rw [if_pos h3]

theorem buildDirect_settles (ssys tsys : String) :
    ∀ (rows : List CrosswalkRow) (s : Store), ∀ r ∈ rows,
      rowSettled ssys tsys r (buildDirect ssys tsys rows s) := by
  intro rows
  induction rows with
  | nil => intro s r hmem; exact absurd hmem (by simp)
  | cons r0 rows ih =>
    intro s r hmem
    show rowSettled ssys tsys r
      (buildDirect ssys tsys rows (directMapRow ssys tsys s r0))
    rcases List.mem_cons.mp hmem with rfl | hmem
    · exact rowSettled_mono (buildDirect_grows ssys tsys rows _)
        (settled_after_directMapRow ssys tsys s r)
    · exact ih _ r hmem

theorem buildDirect_noop (ssys tsys : String) :
    ∀ (rows : List CrosswalkRow) (s : Store),
      (∀ r ∈ rows, rowSettled ssys tsys r s) →
      buildDirect ssys tsys rows s = s := by
  intro rows
  induction rows with
  | nil => intro s _; rfl
  | cons r0 rows ih =>
    intro s h
    show buildDirect ssys tsys rows (directMapRow ssys tsys s r0) = s
    rw [settled_noop (h r0 (List.mem_cons_self _ _))]
    exact ih s (fun r hr => h r (List.mem_cons_of_mem _ hr))

theorem directFold_settles :
    ∀ (files : List CrosswalkFile) (s : Store), ∀ f ∈ files, ∀ r ∈ f.rows,
      rowSettled f.source_system f.target_system r
        (files.foldl
          (fun acc f => buildDirect f.source_system f.target_system f.rows acc)
          s) := by
  intro files
  induction files with
  | nil => intro s f hf; exact absurd hf (by simp)
  | cons f0 files ih =>
    intro s f hf r hr
    rw [List.foldl_cons]
    rcases List.mem_cons.mp hf with rfl | hf
    · exact rowSettled_mono (directFold_grows files _)
        (buildDirect_settles f.source_system f.target_system f.rows s r hr)
    · exact ih _ f hf r hr

theorem directFold_noop :
    ∀ (files : List CrosswalkFile) (s : Store),
      (∀ f ∈ files, ∀ r ∈ f.rows, rowSettled f.source_system f.target_system r s) →
      files.foldl
        (fun acc f => buildDirect f.source_system f.target_system f.rows acc) s
        = s := by
  intro files
  induction files with
  | nil => intro s _; rfl
  | cons f0 files ih =>
    intro s h
    rw [List.foldl_cons,
      buildDirect_noop f0.source_system f0.target_system f0.rows s
        (h f0 (List.mem_cons_self _ _))]
    exact ih s (fun f hf => h f (List.mem_cons_of_mem _ hf))

/-! ### Idempotence lemmas: derived-mapper reruns -/

theorem rowPresent_mono {s s' : Store} {m : MappingRow} (em : List MappingRow)
    (hm : s'.mappings = s.mappings ++ em) (h : rowPresent s m = true) :
    rowPresent s' m = true := by
  rw [rowPresent, mappingPresent, hm, List.any_append]
  rw [rowPresent, mappingPresent] at h
  rw [h]
  rfl

theorem fold_insert_present :
    ∀ (cands : List MappingRow) (s : Store), ∀ m ∈ cands,
      rowPresent (cands.foldl insertMappingIfAbsent s) m = true := by
  intro cands
  induction cands with
  | nil => intro s m hm; exact absurd hm (by simp)
  | cons m0 rest ih =>
    intro s m hm
    rw [List.foldl_cons]
    obtain ⟨e2, h1, -, -, -⟩ :=
      foldl_insert_spec rest (insertMappingIfAbsent s m0)
    rcases List.mem_cons.mp hm with rfl | hm
    · refine rowPresent_mono e2 h1 ?_
      rw [insertMappingIfAbsent]
      split
      case isTrue hp => exact hp
      case isFalse hp =>
        rw [rowPresent_append_single, sameTupleB_refl, Bool.or_true]
    · exact ih _ m hm

theorem fold_insert_noop :
    ∀ (cands : List MappingRow) (s : Store),
      (∀ m ∈ cands, rowPresent s m = true) →
      cands.foldl insertMappingIfAbsent s = s := by
  intro cands
  induction cands with
  | nil => intro s _; rfl
  | cons m0 rest ih =>
    intro s h
    have hp : mappingPresent s m0.source_system m0.target_system m0.source_code
        m0.target_code = true := h m0 (List.mem_cons_self _ _)
    rw [List.foldl_cons, insertMappingIfAbsent, if_pos hp]
    exact ih s (fun m hm => h m (List.mem_cons_of_mem _ hm))

theorem buildDerived_extra (a b c : String) (s : Store) :
    ∃ em, (buildDerived a b c s).mappings = s.mappings ++ em ∧
      ∀ m ∈ em, m.source_system = a ∧ m.target_system = c := by
  obtain ⟨em, h1, -, -, h4⟩ := foldl_insert_spec (derivedCandidates s a b c) s
  refine ⟨em, h1, fun m hm => ?_⟩
  obtain ⟨ab, -, bc, -, -, rfl⟩ := derivedCandidates_mem ((h4 m hm).1)
  exact ⟨rfl, rfl⟩

theorem derivedFold_extra :
    ∀ (specs : List DerivedSpec) (t : Store),
      ∃ em, (specs.foldl
          (fun acc d => buildDerived d.sourceSystem d.viaSystem d.targetSystem acc)
          t).mappings = t.mappings ++ em ∧
        ∀ m ∈ em, ∃ d' ∈ specs,
          m.source_system = d'.sourceSystem ∧
          m.target_system = d'.targetSystem := by
  intro specs
  induction specs with
  | nil => intro t; exact ⟨[], by simp, by simp⟩
  | cons d specs ih =>
    intro t
    rw [List.foldl_cons]
    obtain ⟨e1, he1, hp1⟩ :=
      buildDerived_extra d.sourceSystem d.viaSystem d.targetSystem t
    obtain ⟨e2, he2, hp2⟩ :=
      ih (buildDerived d.sourceSystem d.viaSystem d.targetSystem t)
    refine ⟨e1 ++ e2, by rw [he2, he1, List.append_assoc], fun m hm => ?_⟩
    rcases List.mem_append.mp hm with hm | hm
    · exact ⟨d, List.mem_cons_self _ _, (hp1 m hm).1, (hp1 m hm).2⟩
    · obtain ⟨d', hd', h1, h2⟩ := hp2 m hm
      exact ⟨d', List.mem_cons_of_mem _ hd', h1, h2⟩

theorem legRows_of_appended {s s' : Store} {a b : String}
    (em : List MappingRow) (hm : s'.mappings = s.mappings ++ em)
    (hne : ∀ m ∈ em, ¬(m.source_system = a ∧ m.target_system = b)) :
    legRows s' a b = legRows s a b := by
  rw [legRows, legRows, hm, List.filter_append]
  have hnil : em.filter
      (fun m => m.source_system == a && m.target_system == b && m.active)
      = [] := by
    rw [List.filter_eq_nil_iff]
    intro m hmem hp
    simp only [Bool.and_eq_true, beq_iff_eq] at hp
    exact hne m hmem ⟨hp.1.1, hp.1.2⟩
  rw [hnil, List.append_nil]

theorem derived_step_noop (specs : List DerivedSpec) (t : Store)
    (hNF : noFeedbackList specs) :
    ∀ d ∈ specs,
      buildDerived d.sourceSystem d.viaSystem d.targetSystem
        (specs.foldl
          (fun acc d => buildDerived d.sourceSystem d.viaSystem d.targetSystem acc)
          t) =
      specs.foldl
        (fun acc d => buildDerived d.sourceSystem d.viaSystem d.targetSystem acc)
        t := by
  intro d hd
  obtain ⟨pre, post, rfl⟩ := List.append_of_mem hd
  rw [List.foldl_append, List.foldl_cons]
  obtain ⟨em1, he1, hp1⟩ := buildDerived_extra d.sourceSystem d.viaSystem
    d.targetSystem
    (pre.foldl
      (fun acc d => buildDerived d.sourceSystem d.viaSystem d.targetSystem acc)
      t)
  obtain ⟨em2, he2, hp2⟩ := derivedFold_extra post
    (buildDerived d.sourceSystem d.viaSystem d.targetSystem
      (pre.foldl
        (fun acc d => buildDerived d.sourceSystem d.viaSystem d.targetSystem acc)
        t))
  have hall : ∀ m ∈ em1 ++ em2, ∃ d' ∈ pre ++ d :: post,
      m.source_system = d'.sourceSystem ∧ m.target_system = d'.targetSystem := by
    intro m hm
    rcases List.mem_append.mp hm with hm | hm
    · exact ⟨d, List.mem_append_right _ (List.mem_cons_self _ _),
        (hp1 m hm).1, (hp1 m hm).2⟩
    · obtain ⟨d', hd', h1, h2⟩ := hp2 m hm
      exact ⟨d', List.mem_append_right _ (List.mem_cons_of_mem _ hd'), h1, h2⟩
  have happend : (post.foldl
      (fun acc d => buildDerived d.sourceSystem d.viaSystem d.targetSystem acc)
      (buildDerived d.sourceSystem d.viaSystem d.targetSystem
        (pre.foldl
          (fun acc d => buildDerived d.sourceSystem d.viaSystem d.targetSystem acc)
          t))).mappings =
      (pre.foldl
        (fun acc d => buildDerived d.sourceSystem d.viaSystem d.targetSystem acc)
        t).mappings ++ (em1 ++ em2) := by
    rw [he2, he1, List.append_assoc]
  have hlegAB : legRows (post.foldl
      (fun acc d => buildDerived d.sourceSystem d.viaSystem d.targetSystem acc)
      (buildDerived d.sourceSystem d.viaSystem d.targetSystem
        (pre.foldl
          (fun acc d => buildDerived d.sourceSystem d.viaSystem d.targetSystem acc)
          t))) d.sourceSystem d.viaSystem =
      legRows (pre.foldl
        (fun acc d => buildDerived d.sourceSystem d.viaSystem d.targetSystem acc)
        t) d.sourceSystem d.viaSystem := by
    refine legRows_of_appended (em1 ++ em2) happend ?_
    intro m hm ⟨q1, q2⟩
    obtain ⟨d', hd', h1, h2⟩ := hall m hm
    exact (hNF d hd d' hd').1 ⟨h1.symm.trans q1, h2.symm.trans q2⟩
  have hlegBC : legRows (post.foldl
      (fun acc d => buildDerived d.sourceSystem d.viaSystem d.targetSystem acc)
      (buildDerived d.sourceSystem d.viaSystem d.targetSystem
        (pre.foldl
          (fun acc d => buildDerived d.sourceSystem d.viaSystem d.targetSystem acc)
          t))) d.viaSystem d.targetSystem =
      legRows (pre.foldl
        (fun acc d => buildDerived d.sourceSystem d.viaSystem d.targetSystem acc)
        t) d.viaSystem d.targetSystem := by
    refine legRows_of_appended (em1 ++ em2) happend ?_
    intro m hm ⟨q1, q2⟩
    obtain ⟨d', hd', h1, h2⟩ := hall m hm
    exact (hNF d hd d' hd').2 ⟨h1.symm.trans q1, h2.symm.trans q2⟩
  have hcand : derivedCandidates (post.foldl
      (fun acc d => buildDerived d.sourceSystem d.viaSystem d.targetSystem acc)
      (buildDerived d.sourceSystem d.viaSystem d.targetSystem
        (pre.foldl
          (fun acc d => buildDerived d.sourceSystem d.viaSystem d.targetSystem acc)
          t))) d.sourceSystem d.viaSystem d.targetSystem =
      derivedCandidates (pre.foldl
        (fun acc d => buildDerived d.sourceSystem d.viaSystem d.targetSystem acc)
        t) d.sourceSystem d.viaSystem d.targetSystem := by
    rw [derivedCandidates, derivedCandidates, hlegAB, hlegBC]
  rw [buildDerived, hcand]
  apply fold_insert_noop
  intro m hm
  have hpres2 := fold_insert_present _
    (pre.foldl
      (fun acc d => buildDerived d.sourceSystem d.viaSystem d.targetSystem acc)
      t) m hm
  exact rowPresent_mono em2 he2 hpres2

theorem derivedFold_id :
    ∀ (specs : List DerivedSpec) (t : Store),
      (∀ d ∈ specs,
        buildDerived d.sourceSystem d.viaSystem d.targetSystem t = t) →
      specs.foldl
        (fun acc d => buildDerived d.sourceSystem d.viaSystem d.targetSystem acc)
        t = t := by
  intro specs
  induction specs with
  | nil => intro t _; rfl
  | cons d specs ih =>
    intro t h
    rw [List.foldl_cons, h d (List.mem_cons_self _ _)]
    exact ih t (fun d' hd' => h d' (List.mem_cons_of_mem _ hd'))

theorem derivedFold_rerun (specs : List DerivedSpec) (t : Store)
    (hNF : noFeedbackList specs) :
    specs.foldl
      (fun acc d => buildDerived d.sourceSystem d.viaSystem d.targetSystem acc)
      (specs.foldl
        (fun acc d => buildDerived d.sourceSystem d.viaSystem d.targetSystem acc)
        t) =
    specs.foldl
      (fun acc d => buildDerived d.sourceSystem d.viaSystem d.targetSystem acc)
      t :=
  derivedFold_id specs _ (derived_step_noop specs t hNF)

/-- C6: rerunning the full pipeline over unchanged inputs is a no-op on the
store - loader inserts are insert-if-absent no-ops, every crosswalk row is
already settled (its mapping or its deduplicated conflict row exists), and
every derived candidate is already present - so CodeRecord, Mapping and
MappingConflict row counts are identical after the second run. The
`NoDerivedFeedback` hypothesis states that no derived mapper's output table
feeds another derived mapper's legs, as in the shipped configuration. -/
theorem C6_pipeline_idempotent (inp : PipelineInput) (s : Store)
    (hnf : NoDerivedFeedback inp) :
    runPipeline inp (runPipeline inp s) = runPipeline inp s ∧
    (runPipeline inp (runPipeline inp s)).codes.length =
      (runPipeline inp s).codes.length ∧
    (runPipeline inp (runPipeline inp s)).mappings.length =
      (runPipeline inp s).mappings.length ∧
    (runPipeline inp (runPipeline inp s)).conflicts.length =
      (runPipeline inp s).conflicts.length := by
  have hTcodes : (runPipeline inp s).codes = (loadPhase inp s).codes := by
    rw [runPipeline, derivedPhase_codes_eq, directPhase_codes_eq]
  have hload : loadPhase inp (runPipeline inp s) = runPipeline inp s := by
    rw [loadPhase]
    apply loadFold_noop
    intro v hv rec hrec
    rw [codePresentB_congr v.system rec.code hTcodes]
    exact present_after_loadFold inp.vocabs s v hv rec hrec
  have hgrowsDT : Grows (directPhase inp (loadPhase inp s))
      (runPipeline inp s) := by
    rw [runPipeline, derivedPhase]
    exact derivedFold_grows inp.derived _
  have hdirect : directPhase inp (runPipeline inp s) = runPipeline inp s := by
    rw [directPhase]
    apply directFold_noop
    intro f hf r hr
    exact rowSettled_mono hgrowsDT
      (directFold_settles inp.crosswalks (loadPhase inp s) f hf r hr)
  have hderived : derivedPhase inp (runPipeline inp s) = runPipeline inp s := by
    rw [runPipeline, derivedPhase, derivedPhase]
    exact derivedFold_rerun inp.derived (directPhase inp (loadPhase inp s)) hnf
  have hmain : runPipeline inp (runPipeline inp s) = runPipeline inp s := by
    conv_lhs => rw [runPipeline]
    rw [hload, hdirect, hderived]
  exact ⟨hmain, by rw [hmain], by rw [hmain], by rw [hmain]⟩

/-- C6 witness: the three-vocabulary pipeline with a derived mapper is
idempotent from the empty store. -/
theorem C6_pipeline_idempotent_witness :
    NoDerivedFeedback derivedPipelineInput ∧
    runPipeline derivedPipelineInput
        (runPipeline derivedPipelineInput emptyStore) =
      runPipeline derivedPipelineInput emptyStore := by
  have hnf : ∀ d ∈ derivedPipelineInput.derived,
      ∀ d' ∈ derivedPipelineInput.derived,
      ¬(d'.sourceSystem = d.sourceSystem ∧ d'.targetSystem = d.viaSystem) ∧
      ¬(d'.sourceSystem = d.viaSystem ∧ d'.targetSystem = d.targetSystem) := by
    decide
  exact ⟨hnf, (C6_pipeline_idempotent derivedPipelineInput emptyStore hnf).1⟩

/-! ### Direct-mapper exclusivity lemmas -/

theorem directInv_track {ssys tsys scode tcode sdesc : String}
    {reason : ConflictReason} {s : Store} (h : DirectInv s)
    (hbad : ¬resolvesBoth s ssys tsys scode tcode) :
    DirectInv (track ssys tsys scode tcode sdesc reason s) := by
  obtain ⟨hmap, hconf⟩ := h
  rw [track]
  split
  · exact ⟨hmap, hconf⟩
  · refine ⟨fun m hm => hmap m hm, fun c hc => ?_⟩
    rcases List.mem_append.mp hc with hc | hc
    · exact hconf c hc
    · rcases List.mem_singleton.mp hc with rfl
      exact hbad

theorem directInv_directMapRow {ssys tsys : String} {s : Store}
    {r : CrosswalkRow} (h : DirectInv s) :
    DirectInv (directMapRow ssys tsys s r) := by
  rw [directMapRow]
  split
  case isTrue hs =>
    refine directInv_track h ?_
    rintro ⟨h1, -⟩
    rw [Bool.not_eq_true'] at hs
    rw [h1] at hs
    cases hs
  case isFalse hs =>
    split
    case isTrue ht =>
      refine directInv_track h ?_
      rintro ⟨-, h2⟩
      rw [Bool.not_eq_true'] at ht
      rw [h2] at ht
      cases ht
    case isFalse ht =>
      split
      case isTrue hpres => exact h
      case isFalse hpres =>
        obtain ⟨hmap, hconf⟩ := h
        simp only [Bool.not_eq_true, Bool.not_eq_false'] at hs ht
        refine ⟨fun m hm => ?_, fun c hc => hconf c hc⟩
        rcases List.mem_append.mp hm with hm | hm
        · exact hmap m hm
        · rcases List.mem_singleton.mp hm with rfl
          exact ⟨hs, ht⟩

theorem directInv_buildDirect {ssys tsys : String} {rows : List CrosswalkRow}
    {s : Store} (h : DirectInv s) :
    DirectInv (buildDirect ssys tsys rows s) := by
  rw [buildDirect]
  induction rows generalizing s with
  | nil => exact h
  | cons r rows ih =>
    rw [List.foldl_cons]
    exact ih (directInv_directMapRow h)

theorem directInv_directPhase {inp : PipelineInput} {s : Store}
    (h : DirectInv s) : DirectInv (directPhase inp s) := by
  rw [directPhase]
  generalize inp.crosswalks = files
  induction files generalizing s with
  | nil => exact h
  | cons f files ih =>
    rw [List.foldl_cons]
    exact ih (directInv_buildDirect h)

theorem directInv_no_both {s : Store} (h : DirectInv s) :
    ∀ m ∈ s.mappings, ∀ c ∈ s.conflicts, mappingTuple m ≠ conflictTuple c := by
  intro m hm c hc heq
  obtain ⟨hmap, hconf⟩ := h
  have h1 := hmap m hm
  have h2 := hconf c hc
  simp only [mappingTuple, conflictTuple, Prod.mk.injEq] at heq
  obtain ⟨e1, e2, e3, e4⟩ := heq
  rw [e1, e2, e3, e4] at h1
  exact h2 h1

/-- C1: a Direct Mapper run preserves the consistency invariant (each
mapping row's codes both resolve, each conflict row records a failing
lookup); any store satisfying it holds no Mapping row and MappingConflict
row for the same `(source_system, target_system, source_code, target_code)`
tuple; consequently the direct-mapping phase run over freshly loaded tables
never produces both for any tuple. -/
theorem C1_direct_mapper_exclusivity :
    (∀ (ssys tsys : String) (rows : List CrosswalkRow) (s : Store),
      DirectInv s → DirectInv (buildDirect ssys tsys rows s)) ∧
    (∀ s : Store, DirectInv s →
      ∀ m ∈ s.mappings, ∀ c ∈ s.conflicts, mappingTuple m ≠ conflictTuple c) ∧
    (∀ (inp : PipelineInput) (s : Store), s.mappings = [] → s.conflicts = [] →
      ∀ m ∈ (directPhase inp s).mappings, ∀ c ∈ (directPhase inp s).conflicts,
        mappingTuple m ≠ conflictTuple c) := by
  refine ⟨fun _ _ _ _ h => directInv_buildDirect h,
    fun _ h => directInv_no_both h, ?_⟩
  intro inp s hm hc
  refine directInv_no_both (directInv_directPhase ⟨?_, ?_⟩)
  · rw [hm]; intro m hmem; exact absurd hmem (by simp)
  · rw [hc]; intro c hmem; exact absurd hmem (by simp)

/-- C1 witness: the exclusivity conclusion applies to the loaded end-to-end
scenario, whose direct phase emits two mappings and one conflict. -/
theorem C1_direct_mapper_exclusivity_witness :
    (loadPhase endToEndInput emptyStore).mappings = [] ∧
    (loadPhase endToEndInput emptyStore).conflicts = [] ∧
    (∀ m ∈ (directPhase endToEndInput (loadPhase endToEndInput emptyStore)).mappings,
      ∀ c ∈ (directPhase endToEndInput (loadPhase endToEndInput emptyStore)).conflicts,
        mappingTuple m ≠ conflictTuple c) :=
  ⟨by decide, by decide,
    C1_direct_mapper_exclusivity.2.2 endToEndInput
      (loadPhase endToEndInput emptyStore) (by decide) (by decide)⟩

/-- C2: from an empty store, loading vocabulary A (`A1`,`A2`,`A3`) and
vocabulary B (`B1`,`B2`) and direct-mapping the crosswalk
`A1→B1, A2→B9, A3→B2` yields exactly the two mappings `A1→B1` and `A3→B2`
and exactly one conflict, for `A2→B9`, with reason `target_not_found` and
status `open`. -/
theorem C2_end_to_end_scenario :
    (runPipeline endToEndInput emptyStore).mappings.map mappingTuple =
        [("A", "B", "A1", "B1"), ("A", "B", "A3", "B2")] ∧
      (runPipeline endToEndInput emptyStore).conflicts.map
          (fun c => (c.source_code, c.target_code, c.reason, c.status)) =
        [("A2", "B9", ConflictReason.target_not_found, ConflictStatus.opened)] ∧
      (runPipeline endToEndInput emptyStore).mappings.length = 2 ∧
      (runPipeline endToEndInput emptyStore).conflicts.length = 1 :=
  ⟨by decide, by decide, by decide, by decide⟩

/-- C3: the strategy chain is the invalid-code filter, then the fuzzy
matcher, then the placeholder creator only when its enable flag is set; the
first claiming strategy finalizes a conflict with all later strategies
skipped; a conflict whose missing code is placeholder junk is claimed at
index 0 by the invalid-code filter and marked `ignored`, so it never reaches
the fuzzy matcher. -/
theorem C3_strategy_chain_priority (cfg : ResolveConfig) (s : Store)
    (c : MappingConflict) :
    (cfg.createPlaceholders = false →
      strategyChain cfg =
        [Strategy.invalidCodeIgnorer, Strategy.icd10FuzzyMatcher cfg.threshold]) ∧
    (Strategy.missingCodeCreator ∈ strategyChain cfg →
      cfg.createPlaceholders = true) ∧
    (∀ st rest r, applyStrategy s st c = some r →
      applyChain s (st :: rest) c = some (r.1, r.2, 0)) ∧
    (isInvalidCode (missingCode c) = true →
      applyChain s (strategyChain cfg) c =
        some (ignoredByFilter s c, none, 0)) := by
  refine ⟨?_, ?_, ?_, ?_⟩
  · intro h
    simp [strategyChain, h]
  · intro hmem
    cases h : cfg.createPlaceholders
    · exfalso
      rw [strategyChain, h] at hmem
      simp at hmem
    · rfl
  · intro st rest r h
    simp [applyChain, h]
  · intro h
    have h0 : applyStrategy s Strategy.invalidCodeIgnorer c =
        some (ignoredByFilter s c, none) := by
      simp [applyStrategy, h]
    simp [strategyChain, applyChain, h0]

/-- C4: whenever the best similarity score over the generated variants of a
`target_not_found` conflict's code meets or exceeds the threshold, the fuzzy
matcher claims the conflict as `resolved`, sets `resolved_code` to the best
match and records the score and the original/matched codes in `resolution`;
in particular `E119` resolves against the loaded `E11.9` at the recommended
default threshold 0.85 with the separator-normalized match. -/
theorem C4_fuzzy_matcher_behavior :
    (∀ (s : Store) (th : ℚ) (c : MappingConflict) (m : String) (sc : ℚ),
      c.reason = ConflictReason.target_not_found →
      bestCandidate (scoredCandidates (codeVariants c.target_code)
        (vocabCodes s c.target_system)) = some (m, sc) →
      th ≤ sc →
      applyStrategy s (Strategy.icd10FuzzyMatcher th) c =
        some (resolvedByFuzzy s c m sc, none)) ∧
    applyStrategy e119Store (Strategy.icd10FuzzyMatcher defaultThreshold)
        e119Conflict =
      some (resolvedByFuzzy e119Store e119Conflict "E11.9" 1, none) ∧
    (resolvedByFuzzy e119Store e119Conflict "E11.9" 1).status =
        ConflictStatus.resolved ∧
    (resolvedByFuzzy e119Store e119Conflict "E11.9" 1).resolved_code =
      some "E11.9" ∧
    (resolvedByFuzzy e119Store e119Conflict "E11.9" 1).resolution =
      some (fuzzyResolutionText "E119" "E11.9" 1) := by
  refine ⟨?_, by decide, by decide, by decide, by decide⟩
  intro s th c m sc hreason hbest hth
  simp [applyStrategy, hreason, hbest, hth]

/-- C4 witness: the amended hypotheses hold and the theorem applies at the
`E119` instance. -/
theorem C4_fuzzy_matcher_behavior_witness :
    e119Conflict.reason = ConflictReason.target_not_found ∧
    bestCandidate (scoredCandidates (codeVariants e119Conflict.target_code)
      (vocabCodes e119Store e119Conflict.target_system)) = some ("E11.9", 1) ∧
    defaultThreshold ≤ (1 : ℚ) ∧
    applyStrategy e119Store (Strategy.icd10FuzzyMatcher defaultThreshold)
        e119Conflict =
      some (resolvedByFuzzy e119Store e119Conflict "E11.9" 1, none) :=
  ⟨rfl, by decide, by decide,
    C4_fuzzy_matcher_behavior.1 e119Store defaultThreshold e119Conflict
      "E11.9" 1 rfl (by decide) (by decide)⟩

/-- C3 witness: a conflict whose target code is `XXXXX` is junk and the
chain claims it at index 0 as `ignored`. -/
theorem C3_strategy_chain_priority_witness :
    isInvalidCode (missingCode junkConflict) = true ∧
    applyChain e119Store (strategyChain defaultConfig) junkConflict =
      some (ignoredByFilter e119Store junkConflict, none, 0) :=
  ⟨by decide,
    (C3_strategy_chain_priority defaultConfig e119Store junkConflict).2.2.2
      (by decide)⟩

/-- C9 counterexample: supplying `-List` together with both `-Only` and
`-Skip` prints the key list and exits 0 before parameter validation, so the
claimed unconditional exit code 1 does not hold. -/
theorem C9_counterexample_list_flag :
    runScript psListInvocation "" = ScriptOutcome.listExit ∧
    exitCodeOf (runScript psListInvocation "") = some 0 ∧
    exitCodeOf (runScript psListInvocation "") ≠ some 1 ∧
    printsError (runScript psListInvocation "") = false :=
  ⟨rfl, rfl, by decide, rfl⟩

/-- C9 (amended): provided `-List` is not supplied, an invocation passing
both a (PowerShell-truthy) inclusion and exclusion list exits 1 with an
error before any pipeline phase, and likewise an invocation whose supplied
keys contain one outside the known loader/mapper key set after
normalization. -/
theorem C9_cli_param_validation (p : PsParams) (sel : String)
    (hlist : p.list = false) :
    (psTruthyList p.only = true → psTruthyList p.skip = true →
      runScript p sel = ScriptOutcome.mutualExclusionError ∧
        exitCodeOf (runScript p sel) = some 1 ∧
        invokesPipeline (runScript p sel) = false ∧
        printsError (runScript p sel) = true) ∧
    ((psTruthyList p.only && psTruthyList p.skip) = false →
      (∃ k ∈ effectiveKeys p, AllKeys.contains k = false) →
      ∃ kk, runScript p sel = ScriptOutcome.unknownKeyError kk ∧
        AllKeys.contains kk = false ∧
        exitCodeOf (runScript p sel) = some 1 ∧
        invokesPipeline (runScript p sel) = false ∧
        printsError (runScript p sel) = true) := by
  constructor
  · intro h1 h2
    have hrun : runScript p sel = ScriptOutcome.mutualExclusionError := by
      simp [runScript, hlist, h1, h2]
    exact ⟨hrun, by rw [hrun]; rfl, by rw [hrun]; rfl, by rw [hrun]; rfl⟩
  · intro hand hex
    have hsome : (firstUnknownKey (effectiveKeys p)).isSome = true := by
      rw [firstUnknownKey, List.find?_isSome]
      obtain ⟨k, hk, hck⟩ := hex
      refine ⟨k, hk, ?_⟩
      show (!AllKeys.contains k) = true
      rw [Bool.not_eq_true']
      exact hck
    obtain ⟨kk, hfind⟩ := Option.isSome_iff_exists.mp hsome
    have hkk : AllKeys.contains kk = false := by
      have hpk := List.find?_some
        (show List.find? (fun k => !AllKeys.contains k) (effectiveKeys p) =
          some kk from hfind)
      rw [Bool.not_eq_true'] at hpk
      exact hpk
    have hrun : runScript p sel = ScriptOutcome.unknownKeyError kk := by
      simp [runScript, hlist, hand, hfind]
    exact ⟨kk, hrun, hkk, by rw [hrun]; rfl, by rw [hrun]; rfl,
      by rw [hrun]; rfl⟩

/-- C9 witness: the amended theorem applies to an invocation supplying both
lists without `-List`. -/
theorem C9_cli_param_validation_witness :
    psBothListsInvocation.list = false ∧
    psTruthyList psBothListsInvocation.only = true ∧
    psTruthyList psBothListsInvocation.skip = true ∧
    runScript psBothListsInvocation "" = ScriptOutcome.mutualExclusionError ∧
    exitCodeOf (runScript psBothListsInvocation "") = some 1 :=
  ⟨rfl, by decide, by decide,
    ((C9_cli_param_validation psBothListsInvocation "" rfl).1 (by decide)
      (by decide)).1,
    ((C9_cli_param_validation psBothListsInvocation "" rfl).1 (by decide)
      (by decide)).2.1⟩

/-- C10: every conflict-mutating operation of the static sql.js client -
`resolveConflict`, `ignoreConflict`, `reopenConflict`,
`bulkUpdateConflicts` - throws for every input, so no call through this
interface ever succeeds or changes any conflict row. -/
theorem C10_static_client_conflicts_immutable :
    (∀ db id rc res, sqljsResolveConflict db id rc res =
      Except.error "Conflict updates not supported in static mode") ∧
    (∀ db id res, sqljsIgnoreConflict db id res =
      Except.error "Conflict updates not supported in static mode") ∧
    (∀ db id, sqljsReopenConflict db id =
      Except.error "Conflict updates not supported in static mode") ∧
    (∀ db ids action res, sqljsBulkUpdateConflicts db ids action res =
      Except.error "Bulk updates not supported in static mode") ∧
    (∀ db id rc res out, sqljsResolveConflict db id rc res ≠ Except.ok out) ∧
    (∀ db id res out, sqljsIgnoreConflict db id res ≠ Except.ok out) ∧
    (∀ db id out, sqljsReopenConflict db id ≠ Except.ok out) ∧
    (∀ db ids action res out,
      sqljsBulkUpdateConflicts db ids action res ≠ Except.ok out) := by
  refine ⟨fun _ _ _ _ => rfl, fun _ _ _ => rfl, fun _ _ => rfl,
    fun _ _ _ _ => rfl, ?_, ?_, ?_, ?_⟩ <;> intros <;>
    simp [sqljsResolveConflict, sqljsIgnoreConflict, sqljsReopenConflict,
      sqljsBulkUpdateConflicts]

end CodeMx
